import Mathlib

/-!
Shallow embedding of the emoji cipher game server from src/server.js:
the in-memory room registry (gameRooms), the game event handlers
(game_join, game_start_game, game_emoji_locked, game_player_guess,
game_ready_next_round), the round helper functions startGameRound and
endGameRound, and the timer discipline (setTimeout / clearTimeout)
modelled as a list of pending timers with fresh identifiers.  Rooms live
in a heap addressed by creation index, because the JavaScript timer
callbacks capture the room object itself rather than its code; the
registry maps room codes to heap addresses, so a room removed from the
registry is still a live object that a captured callback could act on.
WebSocket sends are modelled as an append-only log of outbound messages
keyed by recipient name.  JavaScript numbers holding scores are modelled
as Int; normalization embeds the ASCII behaviour of the
toUpperCase / replace / trim chain applied to guesses and secret words.
-/

namespace EmojiCipher

/-- Positional lookup in a list, mirroring array indexing in JavaScript. -/
def getAt {α : Type} : List α → Nat → Option α
  | [], _ => none
  | a :: _, 0 => some a
  | _ :: l, n + 1 => getAt l n

/-- Positional update in a list; out of range updates are dropped. -/
def setAt {α : Type} : List α → Nat → α → List α
  | [], _, _ => []
  | _ :: l, 0, b => b :: l
  | a :: l, n + 1, b => a :: setAt l n b

/-- State field of a room, as in the source comment block:
waiting, making, guessing, reveal, finished. -/
inductive GState
  | waiting
  | making
  | guessing
  | reveal
  | finished
deriving DecidableEq

/-- One entry of a rooms players array: a participant name and score.
The live ws handle is not represented; sends are logged by name. -/
structure Player where
  name : String
  score : Int
deriving DecidableEq

/-- The kind of a pending deferred callback: the 70 second making
timeout, the 90 second guessing timeout, or the 6 second reveal delay. -/
inductive TimerKind
  | making70
  | guessing90
  | reveal6
deriving DecidableEq

/-- A pending setTimeout callback: its handle, the heap address of the
captured room object, and which callback body it runs. -/
structure Timer where
  tid : Nat
  rid : Nat
  kind : TimerKind
deriving DecidableEq

/-- Room state, one field per field of the room object literal created
in the game_join case of src/server.js. -/
structure Room where
  code : String
  players : List Player
  state : GState
  currentRound : Nat
  totalRounds : Nat
  wordList : List String
  currentMakerIndex : Nat
  currentWord : String
  currentEmojis : String
  correctGuessers : List String
  roundTimer : Option Nat
deriving DecidableEq

/-- Outbound WebSocket messages produced by the game code, tagged with
the recipient participant name (errorToSender goes back to the
originating connection of the current inbound message). -/
inductive OutMsg
  | playerJoined (dst player : String)
  | gameStarted (dst : String) (totalRounds : Nat) (roster : List (String × Int))
  | roundStart (dst : String) (round makerIndex : Nat) (word : Option String)
  | emojiRevealed (dst emojis : String) (maker : Option String)
  | guessResult (dst player guess : String) (correct : Bool) (points : Int)
  | roundEnd (dst : String) (winner : Option String) (word : String)
      (scores : List (String × Int))
  | gameOver (dst : String) (finalPlayers : List (String × Int))
  | readyAck (dst : String)
  | errorToSender (message : String)
deriving DecidableEq

/-- Whole server configuration: the heap of room objects ever created,
the gameRooms registry mapping codes to heap addresses, the pending
timers, a fresh timer handle counter, and the log of sent messages. -/
structure Config where
  heap : List Room
  registry : List (String × Nat)
  timers : List Timer
  nextTid : Nat
  log : List OutMsg
deriving DecidableEq

/-- Registry lookup (gameRooms.get): first entry with the given code. -/
def lookupReg : List (String × Nat) → String → Option Nat
  | [], _ => none
  | e :: l, code => if e.1 = code then some e.2 else lookupReg l code

/-- Registry deletion (gameRooms.delete): drop entries with the code. -/
def removeCode : List (String × Nat) → String → List (String × Nat)
  | [], _ => []
  | e :: l, code => if e.1 = code then removeCode l code else e :: removeCode l code

/-- clearTimeout on a known handle: drop the pending timer with it. -/
def removeTimer : List Timer → Nat → List Timer
  | [], _ => []
  | t :: ts, tid => if t.tid = tid then removeTimer ts tid else t :: removeTimer ts tid

/-- The pending timers captured over a given room address. -/
def pendingT : List Timer → Nat → List Timer
  | [], _ => []
  | t :: ts, rid => if t.rid = rid then t :: pendingT ts rid else pendingT ts rid

/-- The conditional clearTimeout pattern, as in
if (room.roundTimer) clearTimeout(room.roundTimer). -/
def clearRT (ts : List Timer) : Option Nat → List Timer
  | some tid => removeTimer ts tid
  | none => ts

/-- players.find by name returning presence, for the join duplicate check. -/
def hasName : List Player → String → Bool
  | [], _ => false
  | p :: ps, nm => if p.name = nm then true else hasName ps nm

/-- Membership in the correctGuessers set (Set.has). -/
def memStr : List String → String → Bool
  | [], _ => false
  | s :: l, g => if s = g then true else memStr l g

/-- players.find by name followed by score mutation: add d to the score
of the first player carrying the given name, if any. -/
def updFirst : List Player → String → Int → List Player
  | [], _, _ => []
  | p :: ps, nm, d =>
      if p.name = nm then { p with score := p.score + d } :: ps
      else p :: updFirst ps nm d

/-- Score read through players.find by name: score of the first player
carrying the name, if any. -/
def scoreOf : List Player → String → Option Int
  | [], _ => none
  | p :: ps, nm => if p.name = nm then some p.score else scoreOf ps nm

/-- Name of the player at the current maker index, through the optional
chaining room.players[room.currentMakerIndex]?.name of the source. -/
def Room.makerName (r : Room) : Option String :=
  (getAt r.players r.currentMakerIndex).map Player.name

/-- Characters kept by the replace step: the regex class [A-Z0-9 ]. -/
def keepChar (c : Char) : Bool :=
  decide (('A' ≤ c ∧ c ≤ 'Z') ∨ ('0' ≤ c ∧ c ≤ '9') ∨ c = ' ')

/-- ASCII embedding of String.prototype.toUpperCase. -/
def jsUpper (s : String) : String := String.mk (s.data.map Char.toUpper)

/-- Embedding of replace with the global regex [^A-Z0-9 ] and the empty
replacement: keep exactly the characters in the class. -/
def jsStrip (s : String) : String := String.mk (s.data.filter keepChar)

/-- Drop leading whitespace characters from a character list. -/
def dropLeading : List Char → List Char
  | [] => []
  | c :: cs => if c.isWhitespace then dropLeading cs else c :: cs

/-- Embedding of String.prototype.trim: drop surrounding whitespace. -/
def jsTrim (s : String) : String :=
  String.mk (((dropLeading s.data).reverse |> dropLeading).reverse)

/-- The normalization chain applied by the guess handler to both the
guess and the secret word: toUpperCase, strip, trim. -/
def jsNormalize (s : String) : String := jsTrim (jsStrip (jsUpper s))

/-- The correctness test of the game_player_guess case: both sides of
the strict equality are run through the same normalization chain. -/
def jsGuessCorrect (guess secret : String) : Bool :=
  jsNormalize guess == jsNormalize secret

/-- Modelled from the wording of the specification, for comparison with
the source expression: normalize(s) uppercases the string, strips every
character outside [A-Z0-9 ], and trims surrounding whitespace. -/
def specNormalize (s : String) : String :=
  jsTrim (String.mk ((s.data.map Char.toUpper).filter keepChar))

/-- The scoring formula: the guessNum-th distinct correct guesser earns
Math.max(200, 1000 - (guessNum - 1) * 300) points. -/
def scoreForGuess (guessNum : Nat) : Int :=
  max 200 (1000 - ((guessNum : Int) - 1) * 300)

/-- The wordList indexing with the || MYSTERY fallback: an absent or
falsy (empty) entry is replaced by the placeholder word. -/
def fallbackWord (w : Option String) : String :=
  match w with
  | some s => if s = "" then "MYSTERY" else s
  | none => "MYSTERY"

/-- The roster projection used by round_end and game_game_over. -/
def rosterOf (ps : List Player) : List (String × Int) :=
  ps.map fun p => (p.name, p.score)

/-- endGameRound(room, winnerName): cancel the pending roundTimer, move
to reveal, broadcast round_end, and schedule the 6 second reveal delay.
The 6 second setTimeout result is not stored in roundTimer. -/
def endGameRound (c : Config) (rid : Nat) (winnerName : Option String) : Config :=
  match getAt c.heap rid with
  | none => c
  | some r =>
      let ts1 := clearRT c.timers r.roundTimer
      let msgs := r.players.map fun p =>
        OutMsg.roundEnd p.name winnerName r.currentWord (rosterOf r.players)
      let r1 := { r with roundTimer := none, state := GState.reveal }
      { c with heap := setAt c.heap rid r1,
               timers := ts1 ++ [⟨c.nextTid, rid, TimerKind.reveal6⟩],
               nextTid := c.nextTid + 1,
               log := c.log ++ msgs }

/-- startGameRound(room): advance the round counter; either finish the
game (broadcast game_game_over and delete the room from the registry) or
start the next round (pick maker and word, reset per-round state,
broadcast round_start with the word only to the maker, and rearm the 70
second making timer after cancelling any stored one). -/
def startGameRound (c : Config) (rid : Nat) : Config :=
  match getAt c.heap rid with
  | none => c
  | some r =>
      let round := r.currentRound + 1
      if round > r.totalRounds then
        let r1 := { r with currentRound := round, state := GState.finished }
        let msgs := r.players.map fun p => OutMsg.gameOver p.name (rosterOf r.players)
        { c with heap := setAt c.heap rid r1,
                 registry := removeCode c.registry r.code,
                 log := c.log ++ msgs }
      else
        let idx := (round - 1) % r.players.length
        let word := fallbackWord (getAt r.wordList (round - 1))
        let mName := (getAt r.players idx).map Player.name
        let msgs := r.players.map fun p =>
          OutMsg.roundStart p.name round idx
            (if some p.name = mName then some word else none)
        let ts1 := clearRT c.timers r.roundTimer
        let r1 := { r with
          currentRound := round, state := GState.making,
          currentMakerIndex := idx, currentWord := word,
          currentEmojis := "", correctGuessers := [],
          roundTimer := some c.nextTid }
        { c with heap := setAt c.heap rid r1,
                 timers := ts1 ++ [⟨c.nextTid, rid, TimerKind.making70⟩],
                 nextTid := c.nextTid + 1,
                 log := c.log ++ msgs }

/-- The game_join case: falsy room code or player name is dropped; a
missing room is created in waiting state; the player is appended when
the name is not already present, notifying the existing players.  There
is no guard on the room state. -/
def handleGameJoin (c : Config) (roomCode pName : String) : Config :=
  if roomCode = "" ∨ pName = "" then c
  else
    match lookupReg c.registry roomCode with
    | some rid =>
        match getAt c.heap rid with
        | none => c
        | some r =>
            if hasName r.players pName then c
            else
              let msgs := r.players.map fun p => OutMsg.playerJoined p.name pName
              let r1 := { r with players := r.players ++ [⟨pName, 0⟩] }
              { c with heap := setAt c.heap rid r1, log := c.log ++ msgs }
    | none =>
        let r : Room :=
          { code := roomCode, players := [⟨pName, 0⟩], state := GState.waiting,
            currentRound := 0, totalRounds := 0, wordList := [],
            currentMakerIndex := 0, currentWord := "", currentEmojis := "",
            correctGuessers := [], roundTimer := none }
        { c with heap := c.heap ++ [r],
                 registry := c.registry ++ [(roomCode, c.heap.length)] }

/-- The game_start_game case: only a room in waiting state reacts; the
round parameters are stored, game_game_started is broadcast with a
zeroed roster, and round one is started. -/
def handleGameStartGame (c : Config) (roomCode : String) (tr : Nat)
    (wl : List String) : Config :=
  match lookupReg c.registry roomCode with
  | none => c
  | some rid =>
      match getAt c.heap rid with
      | none => c
      | some r =>
          if r.state ≠ GState.waiting then c
          else
            let r1 := { r with
              totalRounds := tr, wordList := wl,
              currentRound := 0, currentMakerIndex := 0,
              state := GState.making }
            let roster := r1.players.map fun p => (p.name, (0 : Int))
            let msgs := r1.players.map fun p => OutMsg.gameStarted p.name tr roster
            let c1 := { c with heap := setAt c.heap rid r1, log := c.log ++ msgs }
            startGameRound c1 rid

/-- The game_emoji_locked case: only a room in making state reacts; the
emoji string is stored, the correct guesser set is reset, the state
moves to guessing, game_emoji_revealed is broadcast, and the 90 second
guessing timer replaces the stored making timer. -/
def handleGameEmojiLocked (c : Config) (roomCode emojis : String) : Config :=
  match lookupReg c.registry roomCode with
  | none => c
  | some rid =>
      match getAt c.heap rid with
      | none => c
      | some r =>
          if r.state ≠ GState.making then c
          else
            let mName := Room.makerName r
            let msgs := r.players.map fun p =>
              OutMsg.emojiRevealed p.name emojis mName
            let ts1 := clearRT c.timers r.roundTimer
            let r1 := { r with
              currentEmojis := emojis, correctGuessers := [],
              state := GState.guessing, roundTimer := some c.nextTid }
            { c with heap := setAt c.heap rid r1,
                     timers := ts1 ++ [⟨c.nextTid, rid, TimerKind.guessing90⟩],
                     nextTid := c.nextTid + 1,
                     log := c.log ++ msgs }

/-- The game_player_guess case: only a room in guessing state reacts;
the maker and already-correct guessers are dropped; an absent guess
field makes the property read toUpperCase throw, which the outer catch
turns into a Server error reply to the sender; otherwise the guess is
normalized and compared against the normalized secret, a correct guess
adds the sender name to correctGuessers, pays the guesser by rank and
the maker 150, the result is broadcast, and the round ends when the set
reaches the non maker count. -/
def handleGamePlayerGuess (c : Config) (roomCode guesser : String)
    (guess : Option String) : Config :=
  match lookupReg c.registry roomCode with
  | none => c
  | some rid =>
      match getAt c.heap rid with
      | none => c
      | some r =>
          if r.state ≠ GState.guessing then c
          else
            let mName := Room.makerName r
            if some guesser = mName then c
            else if memStr r.correctGuessers guesser then c
            else
              match guess with
              | none =>
                  { c with log := c.log ++ [OutMsg.errorToSender
                      "Server error: Cannot read properties of undefined (reading toUpperCase)"] }
              | some g =>
                  let correct := jsGuessCorrect g r.currentWord
                  let cg := if correct then r.correctGuessers ++ [guesser]
                            else r.correctGuessers
                  let points : Int := if correct then scoreForGuess cg.length else 0
                  let ps1 := if correct then updFirst r.players guesser points
                             else r.players
                  let ps2 := if correct then
                      (match mName with
                       | some m => updFirst ps1 m 150
                       | none => ps1)
                    else ps1
                  let r1 := { r with correctGuessers := cg, players := ps2 }
                  let msgs := ps2.map fun p =>
                    OutMsg.guessResult p.name guesser g correct points
                  let c1 := { c with
                    heap := setAt c.heap rid r1,
                    log := c.log ++ msgs }
                  let nonMakers := ps2.filter fun p => !(some p.name == mName)
                  if correct ∧ cg.length ≥ nonMakers.length then
                    endGameRound c1 rid (some guesser)
                  else c1

/-- The game_ready_next_round case: an unconditional acknowledgement. -/
def handleGameReady (c : Config) : Config :=
  { c with log := c.log ++ [OutMsg.readyAck "sender"] }

/-- A fired timer: the pending entry is consumed, then the captured
callback body runs against the captured room object.  The 70 second
callback rechecks that the room is still making; the 90 second and 6
second callbacks run unconditionally.  None of them consults the
registry. -/
def fireTimer (c : Config) (tid : Nat) : Config :=
  match c.timers.find? (fun t => t.tid == tid) with
  | none => c
  | some t =>
      let c1 := { c with timers := removeTimer c.timers tid }
      match t.kind with
      | TimerKind.making70 =>
          match getAt c1.heap t.rid with
          | none => c1
          | some r =>
              if r.state = GState.making then endGameRound c1 t.rid none else c1
      | TimerKind.guessing90 => endGameRound c1 t.rid none
      | TimerKind.reveal6 => startGameRound c1 t.rid

/-- Inbound game events together with timer expiry. -/
inductive GEvent
  | join (roomCode player : String)
  | startGame (roomCode : String) (totalRounds : Nat) (wordList : List String)
  | emojiLocked (roomCode emojis : String)
  | playerGuess (roomCode player : String) (guess : Option String)
  | readyNextRound
  | fire (tid : Nat)

/-- One step of the single threaded event loop. -/
def stepEv (c : Config) : GEvent → Config
  | GEvent.join rc p => handleGameJoin c rc p
  | GEvent.startGame rc tr wl => handleGameStartGame c rc tr wl
  | GEvent.emojiLocked rc e => handleGameEmojiLocked c rc e
  | GEvent.playerGuess rc p g => handleGamePlayerGuess c rc p g
  | GEvent.readyNextRound => handleGameReady c
  | GEvent.fire tid => fireTimer c tid

/-- The empty initial configuration of the process. -/
def initConfig : Config :=
  { heap := [], registry := [], timers := [], nextTid := 0, log := [] }

/-- Configurations reachable by the event loop from process start. -/
inductive Reachable : Config → Prop
  | init : Reachable initConfig
  | step (c : Config) (e : GEvent) : Reachable c → Reachable (stepEv c e)

/-- Run a whole event list from the initial configuration. -/
def runEvents (es : List GEvent) : Config :=
  es.foldl stepEv initConfig


/-! Helper lemmas about the list primitives of the embedding. -/

theorem getAt_lt {α : Type} : ∀ {l : List α} {i : Nat} {a : α},
    getAt l i = some a → i < l.length := by
  intro l
  induction l with
  | nil => intro i a h; simp [getAt] at h
  | cons x xs ih =>
      intro i a h
      cases i with
      | zero => simp
      | succ n =>
          simp only [getAt] at h
          have := ih h
          simp
          omega

theorem getAt_mem {α : Type} : ∀ {l : List α} {i : Nat} {a : α},
    getAt l i = some a → a ∈ l := by
  intro l
  induction l with
  | nil => intro i a h; simp [getAt] at h
  | cons x xs ih =>
      intro i a h
      cases i with
      | zero => simp [getAt] at h; simp [h]
      | succ n =>
          simp only [getAt] at h
          exact List.mem_cons_of_mem x (ih h)

theorem getAt_append_lt {α : Type} : ∀ {l : List α} (l2 : List α) {i : Nat},
    i < l.length → getAt (l ++ l2) i = getAt l i := by
  intro l
  induction l with
  | nil => intro l2 i h; simp at h
  | cons x xs ih =>
      intro l2 i h
      cases i with
      | zero => rfl
      | succ n =>
          simp only [List.cons_append, getAt]
          exact ih l2 (by simp at h; omega)

theorem getAt_append_len {α : Type} : ∀ (l : List α) (a : α),
    getAt (l ++ [a]) l.length = some a := by
  intro l a
  induction l with
  | nil => rfl
  | cons x xs ih => simpa [getAt] using ih

theorem length_setAt {α : Type} : ∀ (l : List α) (i : Nat) (a : α),
    (setAt l i a).length = l.length := by
  intro l
  induction l with
  | nil => intro i a; rfl
  | cons x xs ih =>
      intro i a
      cases i with
      | zero => rfl
      | succ n => simp [setAt, ih]

theorem getAt_setAt_self {α : Type} : ∀ {l : List α} {i : Nat} (a : α),
    i < l.length → getAt (setAt l i a) i = some a := by
  intro l
  induction l with
  | nil => intro i a h; simp at h
  | cons x xs ih =>
      intro i a h
      cases i with
      | zero => rfl
      | succ n =>
          simp only [setAt, getAt]
          exact ih a (by simp at h; omega)

theorem getAt_setAt_ne {α : Type} : ∀ (l : List α) {i j : Nat} (a : α),
    i ≠ j → getAt (setAt l i a) j = getAt l j := by
  intro l
  induction l with
  | nil => intro i j a h; rfl
  | cons x xs ih =>
      intro i j a h
      cases i with
      | zero =>
          cases j with
          | zero => exact absurd rfl h
          | succ m => rfl
      | succ n =>
          cases j with
          | zero => rfl
          | succ m =>
              simp only [setAt, getAt]
              exact ih a (by omega)

theorem pendingT_append : ∀ (ts ts2 : List Timer) (rid : Nat),
    pendingT (ts ++ ts2) rid = pendingT ts rid ++ pendingT ts2 rid := by
  intro ts ts2 rid
  induction ts with
  | nil => rfl
  | cons t ts ih =>
      by_cases h : t.rid = rid
      · simp [pendingT, h, ih]
      · simp [pendingT, h, ih]

theorem mem_pendingT : ∀ {t : Timer} {ts : List Timer} {rid : Nat},
    t ∈ pendingT ts rid ↔ t ∈ ts ∧ t.rid = rid := by
  intro t ts rid
  induction ts with
  | nil => simp [pendingT]
  | cons u ts ih =>
      by_cases h : u.rid = rid
      · simp only [pendingT, if_pos h, List.mem_cons, ih]
        constructor
        · rintro (rfl | ⟨hm, hr⟩)
          · exact ⟨Or.inl rfl, h⟩
          · exact ⟨Or.inr hm, hr⟩
        · rintro ⟨(rfl | hm), hr⟩
          · exact Or.inl rfl
          · exact Or.inr ⟨hm, hr⟩
      · simp only [pendingT, if_neg h, List.mem_cons, ih]
        constructor
        · rintro ⟨hm, hr⟩
          exact ⟨Or.inr hm, hr⟩
        · rintro ⟨(rfl | hm), hr⟩
          · exact absurd hr h
          · exact ⟨hm, hr⟩

theorem mem_removeTimer : ∀ {t : Timer} {ts : List Timer} {tid : Nat},
    t ∈ removeTimer ts tid ↔ t ∈ ts ∧ t.tid ≠ tid := by
  intro t ts tid
  induction ts with
  | nil => simp [removeTimer]
  | cons u ts ih =>
      by_cases h : u.tid = tid
      · simp only [removeTimer, if_pos h, List.mem_cons, ih]
        constructor
        · rintro ⟨hm, hr⟩
          exact ⟨Or.inr hm, hr⟩
        · rintro ⟨(rfl | hm), hr⟩
          · exact absurd h hr
          · exact ⟨hm, hr⟩
      · simp only [removeTimer, if_neg h, List.mem_cons, ih]
        constructor
        · rintro (rfl | ⟨hm, hr⟩)
          · exact ⟨Or.inl rfl, h⟩
          · exact ⟨Or.inr hm, hr⟩
        · rintro ⟨(rfl | hm), hr⟩
          · exact Or.inl rfl
          · exact Or.inr ⟨hm, hr⟩

theorem removeTimer_eq_self : ∀ {ts : List Timer} {tid : Nat},
    (∀ t ∈ ts, t.tid ≠ tid) → removeTimer ts tid = ts := by
  intro ts tid h
  induction ts with
  | nil => rfl
  | cons u ts ih =>
      have hu : u.tid ≠ tid := h u (List.mem_cons_self u ts)
      simp only [removeTimer, if_neg hu]
      rw [ih fun t ht => h t (List.mem_cons_of_mem u ht)]

theorem removeTimer_append : ∀ (ts ts2 : List Timer) (tid : Nat),
    removeTimer (ts ++ ts2) tid = removeTimer ts tid ++ removeTimer ts2 tid := by
  intro ts ts2 tid
  induction ts with
  | nil => rfl
  | cons t ts ih =>
      by_cases h : t.tid = tid
      · simp [removeTimer, h, ih]
      · simp [removeTimer, h, ih]

theorem pendingT_removeTimer : ∀ (ts : List Timer) (tid rid : Nat),
    pendingT (removeTimer ts tid) rid = removeTimer (pendingT ts rid) tid := by
  intro ts tid rid
  induction ts with
  | nil => rfl
  | cons t ts ih =>
      by_cases h1 : t.tid = tid <;> by_cases h2 : t.rid = rid <;>
        simp [removeTimer, pendingT, h1, h2, ih]

theorem nodup_tids_removeTimer {ts : List Timer} {tid : Nat}
    (h : (ts.map Timer.tid).Nodup) :
    ((removeTimer ts tid).map Timer.tid).Nodup := by
  induction ts with
  | nil => exact h
  | cons u ts ih =>
      simp only [List.map_cons, List.nodup_cons] at h
      by_cases hu : u.tid = tid
      · simp only [removeTimer, if_pos hu]
        exact ih h.2
      · simp only [removeTimer, if_neg hu, List.map_cons, List.nodup_cons]
        refine ⟨fun hmem => ?_, ih h.2⟩
        have : u.tid ∈ ts.map Timer.tid := by
          rcases List.mem_map.mp hmem with ⟨t, ht, htid⟩
          exact List.mem_map.mpr ⟨t, (mem_removeTimer.mp ht).1, htid⟩
        exact h.1 this

theorem lookupReg_append_some : ∀ {l : List (String × Nat)} {k : String}
    {v : Nat} (l2 : List (String × Nat)),
    lookupReg l k = some v → lookupReg (l ++ l2) k = some v := by
  intro l
  induction l with
  | nil => intro k v l2 h; simp [lookupReg] at h
  | cons e l ih =>
      intro k v l2 h
      by_cases he : e.1 = k
      · simp_all [lookupReg]
      · simp only [lookupReg, if_neg he] at h
        simp only [List.cons_append, lookupReg, if_neg he]
        exact ih l2 h

theorem lookupReg_append_none : ∀ {l : List (String × Nat)} {k : String}
    (l2 : List (String × Nat)),
    lookupReg l k = none → lookupReg (l ++ l2) k = lookupReg l2 k := by
  intro l
  induction l with
  | nil => intro k l2 _; rfl
  | cons e l ih =>
      intro k l2 h
      by_cases he : e.1 = k
      · simp [lookupReg, he] at h
      · simp only [lookupReg, if_neg he] at h
        simp only [List.cons_append, lookupReg, if_neg he]
        exact ih l2 h

theorem lookupReg_removeCode : ∀ (l : List (String × Nat)) (code k : String),
    lookupReg (removeCode l code) k =
      if k = code then none else lookupReg l k := by
  intro l code k
  induction l with
  | nil => simp [removeCode, lookupReg]
  | cons e l ih =>
      by_cases he : e.1 = code
      · simp only [removeCode, if_pos he]
        rw [ih]
        by_cases hk : k = code
        · simp [hk]
        · have hek : ¬ e.1 = k := by rw [he]; exact fun h => hk h.symm
          simp only [if_neg hk, lookupReg, if_neg hek]
      · simp only [removeCode, if_neg he]
        by_cases hek : e.1 = k
        · have hk : ¬ k = code := fun h => he (by rw [hek, h])
          simp only [lookupReg, if_pos hek, if_neg hk]
        · simp only [lookupReg, if_neg hek]
          exact ih

theorem memStr_iff : ∀ {l : List String} {g : String},
    memStr l g = true ↔ g ∈ l := by
  intro l g
  induction l with
  | nil => simp [memStr]
  | cons s l ih =>
      by_cases h : s = g
      · simp [memStr, h]
      · simp only [memStr, if_neg h, ih, List.mem_cons]
        constructor
        · exact fun hm => Or.inr hm
        · rintro (rfl | hm)
          · exact absurd rfl h
          · exact hm

theorem hasName_iff : ∀ {ps : List Player} {nm : String},
    hasName ps nm = true ↔ nm ∈ ps.map Player.name := by
  intro ps nm
  induction ps with
  | nil => simp [hasName]
  | cons p ps ih =>
      by_cases h : p.name = nm
      · simp [hasName, h]
      · simp only [hasName, if_neg h, ih, List.map_cons, List.mem_cons]
        constructor
        · exact fun hm => Or.inr hm
        · rintro (rfl | hm)
          · exact absurd rfl h
          · exact hm

theorem length_updFirst : ∀ (l : List Player) (nm : String) (d : Int),
    (updFirst l nm d).length = l.length := by
  intro l nm d
  induction l with
  | nil => rfl
  | cons p ps ih =>
      by_cases h : p.name = nm
      · simp [updFirst, h]
      · simp [updFirst, h, ih]

theorem updFirst_names : ∀ (l : List Player) (nm : String) (d : Int),
    (updFirst l nm d).map Player.name = l.map Player.name := by
  intro l nm d
  induction l with
  | nil => rfl
  | cons p ps ih =>
      by_cases h : p.name = nm
      · simp [updFirst, h]
      · simp [updFirst, h, ih]

theorem getAt_updFirst_name : ∀ (l : List Player) (nm : String) (d : Int)
    (i : Nat), (getAt (updFirst l nm d) i).map Player.name =
      (getAt l i).map Player.name := by
  intro l
  induction l with
  | nil => intro nm d i; rfl
  | cons p ps ih =>
      intro nm d i
      by_cases h : p.name = nm
      · cases i with
        | zero => simp [updFirst, h, getAt]
        | succ n => simp [updFirst, h, getAt]
      · cases i with
        | zero => simp [updFirst, h, getAt]
        | succ n => simp [updFirst, h, getAt, ih]

theorem scoreOf_updFirst_self : ∀ (l : List Player) (nm : String) (d : Int),
    scoreOf (updFirst l nm d) nm = (scoreOf l nm).map (· + d) := by
  intro l nm d
  induction l with
  | nil => rfl
  | cons p ps ih =>
      by_cases h : p.name = nm
      · simp [updFirst, scoreOf, h]
      · simp [updFirst, scoreOf, h, ih]

theorem scoreOf_updFirst_ne : ∀ (l : List Player) {nm nm2 : String} (d : Int),
    nm2 ≠ nm → scoreOf (updFirst l nm d) nm2 = scoreOf l nm2 := by
  intro l nm nm2 d hne
  induction l with
  | nil => rfl
  | cons p ps ih =>
      by_cases h : p.name = nm
      · have hpn : ¬ p.name = nm2 := by rw [h]; exact fun hh => hne hh.symm
        simp only [updFirst, if_pos h, scoreOf, if_neg hpn]
      · by_cases h2 : p.name = nm2
        · simp only [updFirst, if_neg h, scoreOf, if_pos h2]
        · simp only [updFirst, if_neg h, scoreOf, if_neg h2]
          exact ih
/-! The inductive invariant of reachable configurations. -/

/-- Correspondence between the state of a room, its stored roundTimer
handle, and the pending timers that captured it: states waiting and
finished have no pending timer; making and guessing have exactly the
one stored in roundTimer; reveal has exactly the 6 second delay, which
is not stored in roundTimer. -/
def TimerSpec (ts : List Timer) (rid : Nat) (r : Room) : Prop :=
  (r.state = GState.waiting → pendingT ts rid = [] ∧ r.roundTimer = none) ∧
  (r.state = GState.finished → pendingT ts rid = [] ∧ r.roundTimer = none) ∧
  (r.state = GState.making → ∃ tid, r.roundTimer = some tid ∧
    pendingT ts rid = [⟨tid, rid, TimerKind.making70⟩]) ∧
  (r.state = GState.guessing → ∃ tid, r.roundTimer = some tid ∧
    pendingT ts rid = [⟨tid, rid, TimerKind.guessing90⟩]) ∧
  (r.state = GState.reveal → r.roundTimer = none ∧ ∃ tid,
    pendingT ts rid = [⟨tid, rid, TimerKind.reveal6⟩])

/-- The inductive invariant: registry entries and live rooms agree,
every room keeps a nonempty roster and an in-range maker index, the
maker is never among the correct guessers, waiting rooms are fresh, and
the pending timers respect TimerSpec with globally fresh handles. -/
structure Inv (c : Config) : Prop where
  regHeap : ∀ code rid, lookupReg c.registry code = some rid →
    ∃ r, getAt c.heap rid = some r ∧ r.code = code ∧ r.state ≠ GState.finished
  regBack : ∀ rid r, getAt c.heap rid = some r → r.state ≠ GState.finished →
    lookupReg c.registry r.code = some rid
  playersNE : ∀ rid r, getAt c.heap rid = some r → r.players ≠ []
  makerLt : ∀ rid r, getAt c.heap rid = some r →
    r.currentMakerIndex < r.players.length
  makerNotCG : ∀ rid r, getAt c.heap rid = some r →
    ∀ n ∈ r.correctGuessers, some n ≠ r.makerName
  waitInit : ∀ rid r, getAt c.heap rid = some r → r.state = GState.waiting →
    r.correctGuessers = [] ∧ r.roundTimer = none ∧ r.currentRound = 0 ∧
    ∀ p ∈ r.players, p.score = 0
  timerCorr : ∀ rid r, getAt c.heap rid = some r → TimerSpec c.timers rid r
  tidsLt : ∀ t ∈ c.timers, t.tid < c.nextTid
  tidsNodup : (c.timers.map Timer.tid).Nodup
  ridsLt : ∀ t ∈ c.timers, t.rid < c.heap.length

/-- Per-room properties survive a heap update when the replacement room
satisfies them. -/
theorem forall_getAt_setAt {P : Nat → Room → Prop}
    {h : List Room} {rid : Nat} {r1 : Room}
    (hall : ∀ i r, getAt h i = some r → i ≠ rid → P i r)
    (hnew : rid < h.length → P rid r1) :
    ∀ i r, getAt (setAt h rid r1) i = some r → P i r := by
  intro i r hg
  by_cases hi : i = rid
  · subst hi
    have hlen : i < h.length := by
      have := getAt_lt hg
      rwa [length_setAt] at this
    rw [getAt_setAt_self r1 hlen] at hg
    cases hg
    exact hnew hlen
  · rw [getAt_setAt_ne h r1 (fun hh => hi hh.symm)] at hg
    exact hall i r hg hi

theorem mem_clearRT {t : Timer} {ts : List Timer} {o : Option Nat}
    (h : t ∈ clearRT ts o) : t ∈ ts := by
  cases o with
  | none => exact h
  | some tid => exact (mem_removeTimer.mp h).1

theorem pendingT_clearRT (ts : List Timer) (o : Option Nat) (rid : Nat) :
    pendingT (clearRT ts o) rid = clearRT (pendingT ts rid) o := by
  cases o with
  | none => rfl
  | some tid => exact pendingT_removeTimer ts tid rid

/-- TimerSpec only looks at the pending timers of its own room. -/
theorem TimerSpec_congr {ts ts2 : List Timer} {rid : Nat} {r : Room}
    (hp : pendingT ts2 rid = pendingT ts rid) (h : TimerSpec ts rid r) :
    TimerSpec ts2 rid r := by
  unfold TimerSpec at h ⊢
  rw [hp]
  exact h

/-- Two pending timers with one handle are one timer. -/
theorem timer_tid_inj {ts : List Timer}
    (hnd : (ts.map Timer.tid).Nodup) {a b : Timer}
    (ha : a ∈ ts) (hb : b ∈ ts) (htid : a.tid = b.tid) : a = b := by
  induction ts with
  | nil => cases ha
  | cons u ts ih =>
      simp only [List.map_cons, List.nodup_cons] at hnd
      rcases List.mem_cons.mp ha with rfl | ha2
      · rcases List.mem_cons.mp hb with rfl | hb2
        · rfl
        · exact absurd (htid ▸ List.mem_map.mpr ⟨b, hb2, rfl⟩) hnd.1
      · rcases List.mem_cons.mp hb with rfl | hb2
        · exact absurd (htid ▸ List.mem_map.mpr ⟨a, ha2, rfl⟩) hnd.1
        · exact ih hnd.2 ha2 hb2

/-- Arming a timer for one room after a clearTimeout whose handle does
not occur among the pending timers of another room leaves that other
room with its pending timers untouched. -/
theorem pendingT_arm_other {ts : List Timer} {rt : Option Nat}
    {ntid rid rid2 : Nat} {k : TimerKind} (hne : rid2 ≠ rid)
    (hclr : ∀ t ∈ pendingT ts rid2, ∀ tid0, rt = some tid0 → t.tid ≠ tid0) :
    pendingT (clearRT ts rt ++ [⟨ntid, rid, k⟩]) rid2 = pendingT ts rid2 := by
  rw [pendingT_append]
  have h2 : pendingT [⟨ntid, rid, k⟩] rid2 = [] := by
    simp only [pendingT]
    rw [if_neg (fun hh => hne hh.symm)]
  rw [h2, List.append_nil, pendingT_clearRT]
  cases rt with
  | none => rfl
  | some tid0 =>
      exact removeTimer_eq_self fun t ht => hclr t ht tid0 rfl

/-- Arming a timer for a room whose pending timers the clearTimeout just
emptied leaves exactly the new timer pending for it. -/
theorem pendingT_arm_self {ts : List Timer} {rt : Option Nat}
    {ntid rid : Nat} {k : TimerKind}
    (hclr : clearRT (pendingT ts rid) rt = []) :
    pendingT (clearRT ts rt ++ [⟨ntid, rid, k⟩]) rid = [⟨ntid, rid, k⟩] := by
  rw [pendingT_append, pendingT_clearRT, hclr]
  simp [pendingT]

theorem nodup_tids_clearRT {ts : List Timer} {o : Option Nat}
    (h : (ts.map Timer.tid).Nodup) :
    ((clearRT ts o).map Timer.tid).Nodup := by
  cases o with
  | none => exact h
  | some tid => exact nodup_tids_removeTimer h

theorem nodup_tids_arm {ts : List Timer} {ntid rid : Nat} {k : TimerKind}
    (h : (ts.map Timer.tid).Nodup) (hlt : ∀ t ∈ ts, t.tid < ntid) :
    ((ts ++ [⟨ntid, rid, k⟩] : List Timer).map Timer.tid).Nodup := by
  rw [List.map_append]
  refine List.Nodup.append h (List.nodup_singleton ntid) ?_
  intro a ha hb
  simp only [List.map_cons, List.map_nil, List.mem_singleton] at hb
  rcases List.mem_map.mp ha with ⟨t, ht, rfl⟩
  exact absurd hb (Nat.ne_of_lt (hlt t ht))


theorem getAt_append_singleton_cases {α : Type} :
    ∀ {l : List α} {a x : α} {i : Nat},
    getAt (l ++ [a]) i = some x → getAt l i = some x ∨ (i = l.length ∧ x = a) := by
  intro l
  induction l with
  | nil =>
      intro a x i h
      cases i with
      | zero =>
          simp only [List.nil_append, getAt] at h
          cases h
          exact Or.inr ⟨rfl, rfl⟩
      | succ n => simp [getAt] at h
  | cons y l ih =>
      intro a x i h
      cases i with
      | zero => exact Or.inl h
      | succ n =>
          simp only [List.cons_append, getAt] at h ⊢
          rcases ih h with h1 | ⟨h2, h3⟩
          · exact Or.inl h1
          · exact Or.inr ⟨by simp [h2], h3⟩

theorem pendingT_nil_of_rids {ts : List Timer} {rid : Nat}
    (h : ∀ t ∈ ts, t.rid ≠ rid) : pendingT ts rid = [] := by
  induction ts with
  | nil => rfl
  | cons t ts ih =>
      simp only [pendingT, if_neg (h t (List.mem_cons_self t ts))]
      exact ih fun u hu => h u (List.mem_cons_of_mem t hu)

theorem TimerSpec_of_waiting {ts : List Timer} {rid : Nat} {r : Room}
    (hst : r.state = GState.waiting) (hrt : r.roundTimer = none)
    (hp : pendingT ts rid = []) : TimerSpec ts rid r := by
  refine ⟨fun _ => ⟨hp, hrt⟩, fun h => ?_, fun h => ?_, fun h => ?_, fun h => ?_⟩ <;>
    rw [hst] at h <;> simp at h

theorem TimerSpec_of_finished {ts : List Timer} {rid : Nat} {r : Room}
    (hst : r.state = GState.finished) (hrt : r.roundTimer = none)
    (hp : pendingT ts rid = []) : TimerSpec ts rid r := by
  refine ⟨fun h => ?_, fun _ => ⟨hp, hrt⟩, fun h => ?_, fun h => ?_, fun h => ?_⟩ <;>
    rw [hst] at h <;> simp at h

theorem TimerSpec_of_making {ts : List Timer} {rid : Nat} {r : Room} {tid : Nat}
    (hst : r.state = GState.making) (hrt : r.roundTimer = some tid)
    (hp : pendingT ts rid = [⟨tid, rid, TimerKind.making70⟩]) :
    TimerSpec ts rid r := by
  refine ⟨fun h => ?_, fun h => ?_, fun _ => ⟨tid, hrt, hp⟩, fun h => ?_, fun h => ?_⟩ <;>
    rw [hst] at h <;> simp at h

theorem TimerSpec_of_guessing {ts : List Timer} {rid : Nat} {r : Room} {tid : Nat}
    (hst : r.state = GState.guessing) (hrt : r.roundTimer = some tid)
    (hp : pendingT ts rid = [⟨tid, rid, TimerKind.guessing90⟩]) :
    TimerSpec ts rid r := by
  refine ⟨fun h => ?_, fun h => ?_, fun h => ?_, fun _ => ⟨tid, hrt, hp⟩, fun h => ?_⟩ <;>
    rw [hst] at h <;> simp at h

theorem TimerSpec_of_reveal {ts : List Timer} {rid : Nat} {r : Room} {tid : Nat}
    (hst : r.state = GState.reveal) (hrt : r.roundTimer = none)
    (hp : pendingT ts rid = [⟨tid, rid, TimerKind.reveal6⟩]) :
    TimerSpec ts rid r := by
  refine ⟨fun h => ?_, fun h => ?_, fun h => ?_, fun h => ?_,
    fun _ => ⟨hrt, tid, hp⟩⟩ <;> rw [hst] at h <;> simp at h


/-! Branch characterizations of the handlers. -/

theorem endGameRound_eq (c : Config) {rid : Nat} {r : Room} (w : Option String)
    (hgr : getAt c.heap rid = some r) :
    endGameRound c rid w =
      { c with
        heap := setAt c.heap rid { r with roundTimer := none, state := GState.reveal },
        timers := clearRT c.timers r.roundTimer ++ [⟨c.nextTid, rid, TimerKind.reveal6⟩],
        nextTid := c.nextTid + 1,
        log := c.log ++ r.players.map fun q =>
          OutMsg.roundEnd q.name w r.currentWord (rosterOf r.players) } := by
  unfold endGameRound
  rw [hgr]

theorem endGameRound_noroom (c : Config) {rid : Nat} (w : Option String)
    (hgr : getAt c.heap rid = none) : endGameRound c rid w = c := by
  unfold endGameRound
  rw [hgr]

theorem startGameRound_over (c : Config) {rid : Nat} {r : Room}
    (hgr : getAt c.heap rid = some r)
    (hov : r.currentRound + 1 > r.totalRounds) :
    startGameRound c rid =
      { c with
        heap := setAt c.heap rid
          { r with currentRound := r.currentRound + 1, state := GState.finished },
        registry := removeCode c.registry r.code,
        log := c.log ++ r.players.map fun q =>
          OutMsg.gameOver q.name (rosterOf r.players) } := by
  unfold startGameRound
  rw [hgr]
  simp only [if_pos hov]

theorem startGameRound_next (c : Config) {rid : Nat} {r : Room}
    (hgr : getAt c.heap rid = some r)
    (hov : ¬ r.currentRound + 1 > r.totalRounds) :
    startGameRound c rid =
      { c with
        heap := setAt c.heap rid { r with
          currentRound := r.currentRound + 1, state := GState.making,
          currentMakerIndex := r.currentRound % r.players.length,
          currentWord := fallbackWord (getAt r.wordList r.currentRound),
          currentEmojis := "", correctGuessers := [],
          roundTimer := some c.nextTid },
        timers := clearRT c.timers r.roundTimer ++ [⟨c.nextTid, rid, TimerKind.making70⟩],
        nextTid := c.nextTid + 1,
        log := c.log ++ r.players.map fun q =>
          OutMsg.roundStart q.name (r.currentRound + 1)
            (r.currentRound % r.players.length)
            (if some q.name =
                (getAt r.players (r.currentRound % r.players.length)).map Player.name
             then some (fallbackWord (getAt r.wordList r.currentRound)) else none) } := by
  unfold startGameRound
  rw [hgr]
  simp only [if_neg hov]
  rfl

theorem startGameRound_noroom (c : Config) {rid : Nat}
    (hgr : getAt c.heap rid = none) : startGameRound c rid = c := by
  unfold startGameRound
  rw [hgr]

theorem handleGameJoin_invalid (c : Config) {rc p : String}
    (h : rc = "" ∨ p = "") : handleGameJoin c rc p = c := by
  unfold handleGameJoin
  rw [if_pos h]

theorem handleGameJoin_noroom (c : Config) {rc p : String} {rid : Nat}
    (h : ¬ (rc = "" ∨ p = "")) (hlk : lookupReg c.registry rc = some rid)
    (hgr : getAt c.heap rid = none) : handleGameJoin c rc p = c := by
  unfold handleGameJoin
  rw [if_neg h]
  simp only [hlk, hgr]

theorem handleGameJoin_dup (c : Config) {rc p : String} {rid : Nat} {r : Room}
    (h : ¬ (rc = "" ∨ p = "")) (hlk : lookupReg c.registry rc = some rid)
    (hgr : getAt c.heap rid = some r) (hhn : hasName r.players p = true) :
    handleGameJoin c rc p = c := by
  unfold handleGameJoin
  rw [if_neg h]
  simp only [hlk, hgr]
  rw [hhn, if_pos rfl]

theorem handleGameJoin_append (c : Config) {rc p : String} {rid : Nat} {r : Room}
    (h : ¬ (rc = "" ∨ p = "")) (hlk : lookupReg c.registry rc = some rid)
    (hgr : getAt c.heap rid = some r) (hhn : hasName r.players p = false) :
    handleGameJoin c rc p =
      { c with
        heap := setAt c.heap rid { r with players := r.players ++ [⟨p, 0⟩] },
        log := c.log ++ r.players.map fun q => OutMsg.playerJoined q.name p } := by
  unfold handleGameJoin
  rw [if_neg h]
  simp only [hlk, hgr]
  rw [hhn]
  simp only [Bool.false_eq_true, if_false]

theorem handleGameJoin_create (c : Config) {rc p : String}
    (h : ¬ (rc = "" ∨ p = "")) (hlk : lookupReg c.registry rc = none) :
    handleGameJoin c rc p =
      { c with
        heap := c.heap ++
          [{ code := rc, players := [⟨p, 0⟩], state := GState.waiting,
             currentRound := 0, totalRounds := 0, wordList := [],
             currentMakerIndex := 0, currentWord := "", currentEmojis := "",
             correctGuessers := [], roundTimer := none }],
        registry := c.registry ++ [(rc, c.heap.length)] } := by
  unfold handleGameJoin
  rw [if_neg h]
  simp only [hlk]

theorem handleGameStartGame_noroom (c : Config) {rc : String} (tr : Nat)
    (wl : List String) (hlk : lookupReg c.registry rc = none) :
    handleGameStartGame c rc tr wl = c := by
  unfold handleGameStartGame
  simp only [hlk]

theorem handleGameStartGame_badheap (c : Config) {rc : String} (tr : Nat)
    (wl : List String) {rid : Nat} (hlk : lookupReg c.registry rc = some rid)
    (hgr : getAt c.heap rid = none) : handleGameStartGame c rc tr wl = c := by
  unfold handleGameStartGame
  simp only [hlk, hgr]

theorem handleGameStartGame_wrongstate (c : Config) {rc : String} (tr : Nat)
    (wl : List String) {rid : Nat} {r : Room}
    (hlk : lookupReg c.registry rc = some rid)
    (hgr : getAt c.heap rid = some r) (hst : r.state ≠ GState.waiting) :
    handleGameStartGame c rc tr wl = c := by
  unfold handleGameStartGame
  simp only [hlk, hgr]
  rw [if_pos hst]

theorem handleGameStartGame_go (c : Config) {rc : String} (tr : Nat)
    (wl : List String) {rid : Nat} {r : Room}
    (hlk : lookupReg c.registry rc = some rid)
    (hgr : getAt c.heap rid = some r) (hst : r.state = GState.waiting) :
    handleGameStartGame c rc tr wl =
      startGameRound
        { c with
          heap := setAt c.heap rid { r with
            totalRounds := tr, wordList := wl, currentRound := 0,
            currentMakerIndex := 0, state := GState.making },
          log := c.log ++ r.players.map fun q =>
            OutMsg.gameStarted q.name tr
              (r.players.map fun q2 => (q2.name, (0 : Int))) }
        rid := by
  unfold handleGameStartGame
  simp only [hlk, hgr]
  rw [if_neg (fun hne => hne hst)]

theorem handleGameEmojiLocked_go (c : Config) {rc : String} (em : String)
    {rid : Nat} {r : Room} (hlk : lookupReg c.registry rc = some rid)
    (hgr : getAt c.heap rid = some r) (hst : r.state = GState.making) :
    handleGameEmojiLocked c rc em =
      { c with
        heap := setAt c.heap rid { r with
          currentEmojis := em, correctGuessers := [],
          state := GState.guessing, roundTimer := some c.nextTid },
        timers := clearRT c.timers r.roundTimer ++
          [⟨c.nextTid, rid, TimerKind.guessing90⟩],
        nextTid := c.nextTid + 1,
        log := c.log ++ r.players.map fun q =>
          OutMsg.emojiRevealed q.name em r.makerName } := by
  unfold handleGameEmojiLocked
  simp only [hlk, hgr]
  rw [if_neg (fun hne => hne hst)]

theorem handleGameEmojiLocked_wrongstate (c : Config) {rc : String}
    (em : String) {rid : Nat} {r : Room}
    (hlk : lookupReg c.registry rc = some rid)
    (hgr : getAt c.heap rid = some r) (hst : r.state ≠ GState.making) :
    handleGameEmojiLocked c rc em = c := by
  unfold handleGameEmojiLocked
  simp only [hlk, hgr]
  rw [if_pos hst]

theorem handleGameEmojiLocked_noroom (c : Config) {rc : String} (em : String)
    (hlk : lookupReg c.registry rc = none) :
    handleGameEmojiLocked c rc em = c := by
  unfold handleGameEmojiLocked
  simp only [hlk]

theorem handleGameEmojiLocked_badheap (c : Config) {rc : String} (em : String)
    {rid : Nat} (hlk : lookupReg c.registry rc = some rid)
    (hgr : getAt c.heap rid = none) :
    handleGameEmojiLocked c rc em = c := by
  unfold handleGameEmojiLocked
  simp only [hlk, hgr]


theorem handleGamePlayerGuess_noroom (c : Config) {rc : String}
    (guesser : String) (g : Option String)
    (hlk : lookupReg c.registry rc = none) :
    handleGamePlayerGuess c rc guesser g = c := by
  unfold handleGamePlayerGuess
  simp only [hlk]

theorem handleGamePlayerGuess_badheap (c : Config) {rc : String}
    (guesser : String) (g : Option String) {rid : Nat}
    (hlk : lookupReg c.registry rc = some rid)
    (hgr : getAt c.heap rid = none) :
    handleGamePlayerGuess c rc guesser g = c := by
  unfold handleGamePlayerGuess
  simp only [hlk, hgr]

theorem handleGamePlayerGuess_wrongstate (c : Config) {rc : String}
    (guesser : String) (g : Option String) {rid : Nat} {r : Room}
    (hlk : lookupReg c.registry rc = some rid)
    (hgr : getAt c.heap rid = some r) (hst : r.state ≠ GState.guessing) :
    handleGamePlayerGuess c rc guesser g = c := by
  unfold handleGamePlayerGuess
  simp only [hlk, hgr]
  rw [if_pos hst]

theorem handleGamePlayerGuess_maker (c : Config) {rc guesser : String}
    (g : Option String) {rid : Nat} {r : Room}
    (hlk : lookupReg c.registry rc = some rid)
    (hgr : getAt c.heap rid = some r) (hst : r.state = GState.guessing)
    (hm : some guesser = r.makerName) :
    handleGamePlayerGuess c rc guesser g = c := by
  unfold handleGamePlayerGuess
  simp only [hlk, hgr]
  rw [if_neg (fun hne => hne hst), if_pos hm]

theorem handleGamePlayerGuess_already (c : Config) {rc guesser : String}
    (g : Option String) {rid : Nat} {r : Room}
    (hlk : lookupReg c.registry rc = some rid)
    (hgr : getAt c.heap rid = some r) (hst : r.state = GState.guessing)
    (hm : ¬ some guesser = r.makerName)
    (hcg : memStr r.correctGuessers guesser = true) :
    handleGamePlayerGuess c rc guesser g = c := by
  unfold handleGamePlayerGuess
  simp only [hlk, hgr]
  rw [if_neg (fun hne => hne hst), if_neg hm, hcg, if_pos rfl]

theorem handleGamePlayerGuess_missing (c : Config) {rc guesser : String}
    {rid : Nat} {r : Room} (hlk : lookupReg c.registry rc = some rid)
    (hgr : getAt c.heap rid = some r) (hst : r.state = GState.guessing)
    (hm : ¬ some guesser = r.makerName)
    (hcg : memStr r.correctGuessers guesser = false) :
    handleGamePlayerGuess c rc guesser none =
      { c with log := c.log ++ [OutMsg.errorToSender
          "Server error: Cannot read properties of undefined (reading toUpperCase)"] } := by
  unfold handleGamePlayerGuess
  simp only [hlk, hgr]
  rw [if_neg (fun hne => hne hst), if_neg hm, hcg]
  simp only [Bool.false_eq_true, if_false]

theorem handleGamePlayerGuess_incorrect (c : Config) {rc guesser g : String}
    {rid : Nat} {r : Room} (hlk : lookupReg c.registry rc = some rid)
    (hgr : getAt c.heap rid = some r) (hst : r.state = GState.guessing)
    (hm : ¬ some guesser = r.makerName)
    (hcg : memStr r.correctGuessers guesser = false)
    (hc : jsGuessCorrect g r.currentWord = false) :
    handleGamePlayerGuess c rc guesser (some g) =
      { c with
        heap := setAt c.heap rid r,
        log := c.log ++ r.players.map fun q =>
          OutMsg.guessResult q.name guesser g false 0 } := by
  unfold handleGamePlayerGuess
  simp only [hlk, hgr]
  rw [if_neg (fun hne => hne hst), if_neg hm, hcg]
  simp only [Bool.false_eq_true, if_false, hc]
  rw [if_neg (fun hh => hh.1)]

theorem handleGamePlayerGuess_correct (c : Config) {rc guesser g : String}
    {rid : Nat} {r : Room} {m : String}
    (hlk : lookupReg c.registry rc = some rid)
    (hgr : getAt c.heap rid = some r) (hst : r.state = GState.guessing)
    (hmk : r.makerName = some m) (hm : guesser ≠ m)
    (hcg : memStr r.correctGuessers guesser = false)
    (hc : jsGuessCorrect g r.currentWord = true) :
    handleGamePlayerGuess c rc guesser (some g) =
      (let pts := scoreForGuess (r.correctGuessers ++ [guesser]).length
       let ps2 := updFirst (updFirst r.players guesser pts) m 150
       let r1 := { r with
                   correctGuessers := r.correctGuessers ++ [guesser],
                   players := ps2 }
       let c1 := { c with
                   heap := setAt c.heap rid r1,
                   log := c.log ++ ps2.map fun q =>
                     OutMsg.guessResult q.name guesser g true pts }
       if (r.correctGuessers ++ [guesser]).length ≥
            (ps2.filter fun q => !(some q.name == some m)).length
       then endGameRound c1 rid (some guesser) else c1) := by
  have hm2 : ¬ some guesser = r.makerName := by
    rw [hmk]
    exact fun hh => hm (Option.some.inj hh)
  unfold handleGamePlayerGuess
  simp only [hlk, hgr]
  rw [if_neg (fun hne => hne hst), if_neg hm2, hcg]
  simp only [Bool.false_eq_true, if_false, hc, if_true, hmk, true_and, ge_iff_le]


theorem fireTimer_notfound (c : Config) {tid : Nat}
    (h : c.timers.find? (fun u => u.tid == tid) = none) : fireTimer c tid = c := by
  unfold fireTimer
  simp only [h]

theorem fireTimer_m70 (c : Config) {tid : Nat} {t : Timer} {r : Room}
    (h : c.timers.find? (fun u => u.tid == tid) = some t)
    (hk : t.kind = TimerKind.making70) (hgr : getAt c.heap t.rid = some r) :
    fireTimer c tid =
      (if r.state = GState.making
       then endGameRound { c with timers := removeTimer c.timers tid } t.rid none
       else { c with timers := removeTimer c.timers tid }) := by
  unfold fireTimer
  simp only [h, hk, hgr]

theorem fireTimer_g90 (c : Config) {tid : Nat} {t : Timer}
    (h : c.timers.find? (fun u => u.tid == tid) = some t)
    (hk : t.kind = TimerKind.guessing90) :
    fireTimer c tid =
      endGameRound { c with timers := removeTimer c.timers tid } t.rid none := by
  unfold fireTimer
  simp only [h, hk]

theorem fireTimer_r6 (c : Config) {tid : Nat} {t : Timer}
    (h : c.timers.find? (fun u => u.tid == tid) = some t)
    (hk : t.kind = TimerKind.reveal6) :
    fireTimer c tid =
      startGameRound { c with timers := removeTimer c.timers tid } t.rid := by
  unfold fireTimer
  simp only [h, hk]


/-! Preservation of the invariant by each event handler. -/

theorem inv_join (c : Config) (inv : Inv c) (rc p : String) :
    Inv (handleGameJoin c rc p) := by
  by_cases hemp : rc = "" ∨ p = ""
  · rw [handleGameJoin_invalid c hemp]
    exact inv
  · cases hlk : lookupReg c.registry rc with
    | none =>
        rw [handleGameJoin_create c hemp hlk]
        refine { regHeap := ?_, regBack := ?_, playersNE := ?_, makerLt := ?_,
                 makerNotCG := ?_, waitInit := ?_, timerCorr := ?_,
                 tidsLt := ?_, tidsNodup := ?_, ridsLt := ?_ } <;> dsimp only
        · intro code rid0 hl
          cases hlc : lookupReg c.registry code with
          | some v =>
              rw [lookupReg_append_some _ hlc] at hl
              cases hl
              obtain ⟨r0, hg0, hc0, hs0⟩ := inv.regHeap code rid0 hlc
              exact ⟨r0, by rw [getAt_append_lt _ (getAt_lt hg0)]; exact hg0,
                     hc0, hs0⟩
          | none =>
              rw [lookupReg_append_none _ hlc] at hl
              by_cases hrc2 : rc = code
              · simp only [lookupReg, if_pos hrc2] at hl
                cases hl
                refine ⟨_, getAt_append_len c.heap _, hrc2, ?_⟩
                intro hfin
                exact GState.noConfusion hfin
              · simp only [lookupReg, if_neg hrc2] at hl
                cases hl
        · intro rid0 r0 hg hs
          rcases getAt_append_singleton_cases hg with hgo | ⟨hlen, rfl⟩
          · exact lookupReg_append_some _ (inv.regBack rid0 r0 hgo hs)
          · subst hlen
            rw [lookupReg_append_none _ hlk]
            simp [lookupReg]
        · intro rid0 r0 hg
          rcases getAt_append_singleton_cases hg with hgo | ⟨hlen, rfl⟩
          · exact inv.playersNE rid0 r0 hgo
          · simp
        · intro rid0 r0 hg
          rcases getAt_append_singleton_cases hg with hgo | ⟨hlen, rfl⟩
          · exact inv.makerLt rid0 r0 hgo
          · simp
        · intro rid0 r0 hg
          rcases getAt_append_singleton_cases hg with hgo | ⟨hlen, rfl⟩
          · exact inv.makerNotCG rid0 r0 hgo
          · intro n hn
            cases hn
        · intro rid0 r0 hg hw
          rcases getAt_append_singleton_cases hg with hgo | ⟨hlen, rfl⟩
          · exact inv.waitInit rid0 r0 hgo hw
          · refine ⟨rfl, rfl, rfl, ?_⟩
            intro q hq
            rcases List.mem_singleton.mp hq with rfl
            rfl
        · intro rid0 r0 hg
          rcases getAt_append_singleton_cases hg with hgo | ⟨hlen, rfl⟩
          · exact inv.timerCorr rid0 r0 hgo
          · subst hlen
            exact TimerSpec_of_waiting rfl rfl
              (pendingT_nil_of_rids fun t ht => Nat.ne_of_lt (inv.ridsLt t ht))
        · exact inv.tidsLt
        · exact inv.tidsNodup
        · intro t ht
          have := inv.ridsLt t ht
          rw [List.length_append]
          omega
    | some rid =>
        cases hgr : getAt c.heap rid with
        | none =>
            rw [handleGameJoin_noroom c hemp hlk hgr]
            exact inv
        | some r =>
            cases hhn : hasName r.players p with
            | true =>
                rw [handleGameJoin_dup c hemp hlk hgr hhn]
                exact inv
            | false =>
                rw [handleGameJoin_append c hemp hlk hgr hhn]
                have hmaker : ({ r with players := r.players ++ [⟨p, 0⟩] } : Room).makerName
                    = r.makerName := by
                  unfold Room.makerName
                  dsimp only
                  rw [getAt_append_lt _ (inv.makerLt rid r hgr)]
                refine { regHeap := ?_, regBack := ?_, playersNE := ?_, makerLt := ?_,
                         makerNotCG := ?_, waitInit := ?_, timerCorr := ?_,
                         tidsLt := ?_, tidsNodup := ?_, ridsLt := ?_ } <;> dsimp only
                · intro code rid0 hl
                  obtain ⟨r0, hg0, hc0, hs0⟩ := inv.regHeap code rid0 hl
                  by_cases hi : rid0 = rid
                  · subst hi
                    rw [hgr] at hg0
                    cases hg0
                    refine ⟨_, getAt_setAt_self _ (getAt_lt hgr), hc0, hs0⟩
                  · exact ⟨r0, by rw [getAt_setAt_ne _ _ fun hh => hi hh.symm]; exact hg0,
                           hc0, hs0⟩
                · refine forall_getAt_setAt (fun i r0 hg0 hi hs => ?_) (fun hlen hs => ?_)
                  · exact inv.regBack i r0 hg0 hs
                  · exact inv.regBack rid r hgr hs
                · refine forall_getAt_setAt (fun i r0 hg0 hi => ?_) (fun hlen => ?_)
                  · exact inv.playersNE i r0 hg0
                  · simp
                · refine forall_getAt_setAt (fun i r0 hg0 hi => ?_) (fun hlen => ?_)
                  · exact inv.makerLt i r0 hg0
                  · dsimp only
                    rw [List.length_append]
                    have := inv.makerLt rid r hgr
                    omega
                · refine forall_getAt_setAt (fun i r0 hg0 hi => ?_) (fun hlen => ?_)
                  · exact inv.makerNotCG i r0 hg0
                  · intro n hn
                    rw [hmaker]
                    exact inv.makerNotCG rid r hgr n hn
                · refine forall_getAt_setAt (fun i r0 hg0 hi hw => ?_) (fun hlen hw => ?_)
                  · exact inv.waitInit i r0 hg0 hw
                  · obtain ⟨h1, h2, h3, h4⟩ := inv.waitInit rid r hgr hw
                    refine ⟨h1, h2, h3, ?_⟩
                    intro q hq
                    rcases List.mem_append.mp hq with hq2 | hq2
                    · exact h4 q hq2
                    · rcases List.mem_singleton.mp hq2 with rfl
                      rfl
                · refine forall_getAt_setAt (fun i r0 hg0 hi => ?_) (fun hlen => ?_)
                  · exact inv.timerCorr i r0 hg0
                  · exact inv.timerCorr rid r hgr
                · exact inv.tidsLt
                · exact inv.tidsNodup
                · intro t ht
                  rw [length_setAt]
                  exact inv.ridsLt t ht


/-- The invariant minus the timer correspondence of one distinguished
room, used while that room is mid-transition. -/
structure InvBase (c : Config) (rid : Nat) : Prop where
  regHeap : ∀ code rid0, lookupReg c.registry code = some rid0 →
    ∃ r, getAt c.heap rid0 = some r ∧ r.code = code ∧ r.state ≠ GState.finished
  regBack : ∀ rid0 r, getAt c.heap rid0 = some r → r.state ≠ GState.finished →
    lookupReg c.registry r.code = some rid0
  playersNE : ∀ rid0 r, getAt c.heap rid0 = some r → r.players ≠ []
  makerLt : ∀ rid0 r, getAt c.heap rid0 = some r →
    r.currentMakerIndex < r.players.length
  makerNotCG : ∀ rid0 r, getAt c.heap rid0 = some r →
    ∀ n ∈ r.correctGuessers, some n ≠ r.makerName
  waitInit : ∀ rid0 r, getAt c.heap rid0 = some r → r.state = GState.waiting →
    r.correctGuessers = [] ∧ r.roundTimer = none ∧ r.currentRound = 0 ∧
    ∀ p ∈ r.players, p.score = 0
  timerOther : ∀ rid2 r2, rid2 ≠ rid → getAt c.heap rid2 = some r2 →
    TimerSpec c.timers rid2 r2
  tidsLt : ∀ t ∈ c.timers, t.tid < c.nextTid
  tidsNodup : (c.timers.map Timer.tid).Nodup
  ridsLt : ∀ t ∈ c.timers, t.rid < c.heap.length

theorem Inv.toBase {c : Config} (inv : Inv c) (rid : Nat) : InvBase c rid :=
  { regHeap := inv.regHeap, regBack := inv.regBack,
    playersNE := inv.playersNE, makerLt := inv.makerLt,
    makerNotCG := inv.makerNotCG, waitInit := inv.waitInit,
    timerOther := fun rid2 r2 _ hg => inv.timerCorr rid2 r2 hg,
    tidsLt := inv.tidsLt, tidsNodup := inv.tidsNodup, ridsLt := inv.ridsLt }

theorem inv_endGameRound {c : Config} {rid : Nat} {r : Room} (w : Option String)
    (hb : InvBase c rid) (hgr : getAt c.heap rid = some r)
    (hnf : r.state ≠ GState.finished)
    (hclr : clearRT (pendingT c.timers rid) r.roundTimer = [])
    (hother : ∀ t ∈ c.timers, t.rid ≠ rid → ∀ tid0,
      r.roundTimer = some tid0 → t.tid ≠ tid0) :
    Inv (endGameRound c rid w) := by
  rw [endGameRound_eq c w hgr]
  refine { regHeap := ?_, regBack := ?_, playersNE := ?_, makerLt := ?_,
           makerNotCG := ?_, waitInit := ?_, timerCorr := ?_,
           tidsLt := ?_, tidsNodup := ?_, ridsLt := ?_ } <;> dsimp only
  · intro code rid0 hl
    obtain ⟨r0, hg0, hc0, hs0⟩ := hb.regHeap code rid0 hl
    by_cases hi : rid0 = rid
    · subst hi
      rw [hgr] at hg0
      cases hg0
      exact ⟨_, getAt_setAt_self _ (getAt_lt hgr), hc0,
        fun hf => GState.noConfusion hf⟩
    · exact ⟨r0, by rw [getAt_setAt_ne _ _ fun hh => hi hh.symm]; exact hg0,
             hc0, hs0⟩
  · refine forall_getAt_setAt (fun i r0 hg0 hi hs => ?_) (fun hlen hs => ?_)
    · exact hb.regBack i r0 hg0 hs
    · exact hb.regBack rid r hgr hnf
  · refine forall_getAt_setAt (fun i r0 hg0 hi => ?_) (fun hlen => ?_)
    · exact hb.playersNE i r0 hg0
    · exact hb.playersNE rid r hgr
  · refine forall_getAt_setAt (fun i r0 hg0 hi => ?_) (fun hlen => ?_)
    · exact hb.makerLt i r0 hg0
    · exact hb.makerLt rid r hgr
  · refine forall_getAt_setAt (fun i r0 hg0 hi => ?_) (fun hlen => ?_)
    · exact hb.makerNotCG i r0 hg0
    · exact hb.makerNotCG rid r hgr
  · refine forall_getAt_setAt (fun i r0 hg0 hi hw => ?_) (fun hlen hw => ?_)
    · exact hb.waitInit i r0 hg0 hw
    · exact GState.noConfusion hw
  · refine forall_getAt_setAt (fun i r0 hg0 hi => ?_) (fun hlen => ?_)
    · refine TimerSpec_congr ?_ (hb.timerOther i r0 hi hg0)
      refine pendingT_arm_other hi ?_
      intro t ht tid0 hrt
      have hm := mem_pendingT.mp ht
      exact hother t hm.1 (hm.2 ▸ hi) tid0 hrt
    · exact TimerSpec_of_reveal rfl rfl (pendingT_arm_self hclr)
  · intro t ht
    rcases List.mem_append.mp ht with h1 | h1
    · exact Nat.lt_succ_of_lt (hb.tidsLt t (mem_clearRT h1))
    · rcases List.mem_singleton.mp h1 with rfl
      exact Nat.lt_succ_self _
  · exact nodup_tids_arm (nodup_tids_clearRT hb.tidsNodup)
      (fun t ht => hb.tidsLt t (mem_clearRT ht))
  · intro t ht
    rw [length_setAt]
    rcases List.mem_append.mp ht with h1 | h1
    · exact hb.ridsLt t (mem_clearRT h1)
    · rcases List.mem_singleton.mp h1 with rfl
      exact getAt_lt hgr


theorem inv_startGameRound {c : Config} {rid : Nat} {r : Room}
    (hb : InvBase c rid) (hgr : getAt c.heap rid = some r)
    (hnf : r.state ≠ GState.finished) (hrtn : r.roundTimer = none)
    (hpend : pendingT c.timers rid = []) :
    Inv (startGameRound c rid) := by
  by_cases hov : r.currentRound + 1 > r.totalRounds
  · rw [startGameRound_over c hgr hov]
    refine { regHeap := ?_, regBack := ?_, playersNE := ?_, makerLt := ?_,
             makerNotCG := ?_, waitInit := ?_, timerCorr := ?_,
             tidsLt := ?_, tidsNodup := ?_, ridsLt := ?_ } <;> dsimp only
    · intro code rid0 hl
      rw [lookupReg_removeCode] at hl
      by_cases hcc : code = r.code
      · rw [if_pos hcc] at hl
        cases hl
      · rw [if_neg hcc] at hl
        obtain ⟨r0, hg0, hc0, hs0⟩ := hb.regHeap code rid0 hl
        by_cases hi : rid0 = rid
        · subst hi
          rw [hgr] at hg0
          cases hg0
          exact absurd hc0.symm hcc
        · exact ⟨r0, by rw [getAt_setAt_ne _ _ fun hh => hi hh.symm]; exact hg0,
                 hc0, hs0⟩
    · refine forall_getAt_setAt (fun i r0 hg0 hi hs => ?_) (fun hlen hs => ?_)
      · rw [lookupReg_removeCode]
        have hl0 := hb.regBack i r0 hg0 hs
        have hcc : ¬ r0.code = r.code := by
          intro hh
          have hl1 := hb.regBack rid r hgr hnf
          rw [hh, hl1] at hl0
          cases hl0
          exact hi rfl
        rw [if_neg hcc]
        exact hl0
      · exact absurd rfl hs
    · refine forall_getAt_setAt (fun i r0 hg0 hi => ?_) (fun hlen => ?_)
      · exact hb.playersNE i r0 hg0
      · exact hb.playersNE rid r hgr
    · refine forall_getAt_setAt (fun i r0 hg0 hi => ?_) (fun hlen => ?_)
      · exact hb.makerLt i r0 hg0
      · exact hb.makerLt rid r hgr
    · refine forall_getAt_setAt (fun i r0 hg0 hi => ?_) (fun hlen => ?_)
      · exact hb.makerNotCG i r0 hg0
      · exact hb.makerNotCG rid r hgr
    · refine forall_getAt_setAt (fun i r0 hg0 hi hw => ?_) (fun hlen hw => ?_)
      · exact hb.waitInit i r0 hg0 hw
      · exact GState.noConfusion hw
    · refine forall_getAt_setAt (fun i r0 hg0 hi => ?_) (fun hlen => ?_)
      · exact hb.timerOther i r0 hi hg0
      · exact TimerSpec_of_finished rfl hrtn hpend
    · exact hb.tidsLt
    · exact hb.tidsNodup
    · intro t ht
      rw [length_setAt]
      exact hb.ridsLt t ht
  · rw [startGameRound_next c hgr hov]
    have hlenpos : 0 < r.players.length :=
      List.length_pos.mpr (hb.playersNE rid r hgr)
    refine { regHeap := ?_, regBack := ?_, playersNE := ?_, makerLt := ?_,
             makerNotCG := ?_, waitInit := ?_, timerCorr := ?_,
             tidsLt := ?_, tidsNodup := ?_, ridsLt := ?_ } <;> dsimp only
    · intro code rid0 hl
      obtain ⟨r0, hg0, hc0, hs0⟩ := hb.regHeap code rid0 hl
      by_cases hi : rid0 = rid
      · subst hi
        rw [hgr] at hg0
        cases hg0
        exact ⟨_, getAt_setAt_self _ (getAt_lt hgr), hc0,
          fun hf => GState.noConfusion hf⟩
      · exact ⟨r0, by rw [getAt_setAt_ne _ _ fun hh => hi hh.symm]; exact hg0,
               hc0, hs0⟩
    · refine forall_getAt_setAt (fun i r0 hg0 hi hs => ?_) (fun hlen hs => ?_)
      · exact hb.regBack i r0 hg0 hs
      · exact hb.regBack rid r hgr hnf
    · refine forall_getAt_setAt (fun i r0 hg0 hi => ?_) (fun hlen => ?_)
      · exact hb.playersNE i r0 hg0
      · exact hb.playersNE rid r hgr
    · refine forall_getAt_setAt (fun i r0 hg0 hi => ?_) (fun hlen => ?_)
      · exact hb.makerLt i r0 hg0
      · exact Nat.mod_lt _ hlenpos
    · refine forall_getAt_setAt (fun i r0 hg0 hi => ?_) (fun hlen => ?_)
      · exact hb.makerNotCG i r0 hg0
      · intro n hn
        cases hn
    · refine forall_getAt_setAt (fun i r0 hg0 hi hw => ?_) (fun hlen hw => ?_)
      · exact hb.waitInit i r0 hg0 hw
      · exact GState.noConfusion hw
    · refine forall_getAt_setAt (fun i r0 hg0 hi => ?_) (fun hlen => ?_)
      · refine TimerSpec_congr ?_ (hb.timerOther i r0 hi hg0)
        refine pendingT_arm_other hi ?_
        intro t ht tid0 hrt
        rw [hrtn] at hrt
        cases hrt
      · refine TimerSpec_of_making rfl rfl (pendingT_arm_self ?_)
        rw [hpend, hrtn]
        rfl
    · intro t ht
      rcases List.mem_append.mp ht with h1 | h1
      · exact Nat.lt_succ_of_lt (hb.tidsLt t (mem_clearRT h1))
      · rcases List.mem_singleton.mp h1 with rfl
        exact Nat.lt_succ_self _
    · exact nodup_tids_arm (nodup_tids_clearRT hb.tidsNodup)
        (fun t ht => hb.tidsLt t (mem_clearRT ht))
    · intro t ht
      rw [length_setAt]
      rcases List.mem_append.mp ht with h1 | h1
      · exact hb.ridsLt t (mem_clearRT h1)
      · rcases List.mem_singleton.mp h1 with rfl
        exact getAt_lt hgr


theorem getAt_of_lt {α : Type} : ∀ {l : List α} {i : Nat},
    i < l.length → ∃ a, getAt l i = some a := by
  intro l
  induction l with
  | nil => intro i h; simp at h
  | cons x xs ih =>
      intro i h
      cases i with
      | zero => exact ⟨x, rfl⟩
      | succ n => exact ih (by simp at h; omega)

/-- A pending timer handle stored for one room does not occur among
pending timers of other rooms. -/
theorem owner_unique {ts : List Timer} (hnd : (ts.map Timer.tid).Nodup)
    {rid tid0 : Nat} {k : TimerKind}
    (hpend : pendingT ts rid = [⟨tid0, rid, k⟩]) :
    ∀ t ∈ ts, t.rid ≠ rid → t.tid ≠ tid0 := by
  intro t ht hrid htid
  have hu : (⟨tid0, rid, k⟩ : Timer) ∈ pendingT ts rid := by
    rw [hpend]
    exact List.mem_singleton_self _
  have hu2 := (mem_pendingT.mp hu).1
  have heq := timer_tid_inj hnd ht hu2 htid
  rw [heq] at hrid
  exact hrid rfl

theorem inv_ready (c : Config) (inv : Inv c) : Inv (handleGameReady c) :=
  { regHeap := inv.regHeap, regBack := inv.regBack,
    playersNE := inv.playersNE, makerLt := inv.makerLt,
    makerNotCG := inv.makerNotCG, waitInit := inv.waitInit,
    timerCorr := inv.timerCorr, tidsLt := inv.tidsLt,
    tidsNodup := inv.tidsNodup, ridsLt := inv.ridsLt }

theorem inv_emojiLocked (c : Config) (inv : Inv c) (rc em : String) :
    Inv (handleGameEmojiLocked c rc em) := by
  cases hlk : lookupReg c.registry rc with
  | none =>
      rw [handleGameEmojiLocked_noroom c em hlk]
      exact inv
  | some rid =>
      cases hgr : getAt c.heap rid with
      | none =>
          rw [handleGameEmojiLocked_badheap c em hlk hgr]
          exact inv
      | some r =>
          by_cases hst : r.state = GState.making
          · obtain ⟨tid0, hrt, hpend⟩ := (inv.timerCorr rid r hgr).2.2.1 hst
            rw [handleGameEmojiLocked_go c em hlk hgr hst]
            refine { regHeap := ?_, regBack := ?_, playersNE := ?_, makerLt := ?_,
                     makerNotCG := ?_, waitInit := ?_, timerCorr := ?_,
                     tidsLt := ?_, tidsNodup := ?_, ridsLt := ?_ } <;> dsimp only
            · intro code rid0 hl
              obtain ⟨r0, hg0, hc0, hs0⟩ := inv.regHeap code rid0 hl
              by_cases hi : rid0 = rid
              · subst hi
                rw [hgr] at hg0
                cases hg0
                exact ⟨_, getAt_setAt_self _ (getAt_lt hgr), hc0,
                  fun hf => GState.noConfusion hf⟩
              · exact ⟨r0, by rw [getAt_setAt_ne _ _ fun hh => hi hh.symm]; exact hg0,
                       hc0, hs0⟩
            · refine forall_getAt_setAt (fun i r0 hg0 hi hs => ?_) (fun hlen hs => ?_)
              · exact inv.regBack i r0 hg0 hs
              · exact inv.regBack rid r hgr (by rw [hst]; decide)
            · refine forall_getAt_setAt (fun i r0 hg0 hi => ?_) (fun hlen => ?_)
              · exact inv.playersNE i r0 hg0
              · exact inv.playersNE rid r hgr
            · refine forall_getAt_setAt (fun i r0 hg0 hi => ?_) (fun hlen => ?_)
              · exact inv.makerLt i r0 hg0
              · exact inv.makerLt rid r hgr
            · refine forall_getAt_setAt (fun i r0 hg0 hi => ?_) (fun hlen => ?_)
              · exact inv.makerNotCG i r0 hg0
              · intro n hn
                cases hn
            · refine forall_getAt_setAt (fun i r0 hg0 hi hw => ?_) (fun hlen hw => ?_)
              · exact inv.waitInit i r0 hg0 hw
              · exact GState.noConfusion hw
            · refine forall_getAt_setAt (fun i r0 hg0 hi => ?_) (fun hlen => ?_)
              · refine TimerSpec_congr ?_ (inv.timerCorr i r0 hg0)
                refine pendingT_arm_other hi ?_
                intro t ht tid1 hrt1
                rw [hrt] at hrt1
                cases hrt1
                have hm := mem_pendingT.mp ht
                exact owner_unique inv.tidsNodup hpend t hm.1 (hm.2 ▸ hi)
              · refine TimerSpec_of_guessing rfl rfl (pendingT_arm_self ?_)
                rw [hpend, hrt]
                simp [clearRT, removeTimer]
            · intro t ht
              rcases List.mem_append.mp ht with h1 | h1
              · exact Nat.lt_succ_of_lt (inv.tidsLt t (mem_clearRT h1))
              · rcases List.mem_singleton.mp h1 with rfl
                exact Nat.lt_succ_self _
            · exact nodup_tids_arm (nodup_tids_clearRT inv.tidsNodup)
                (fun t ht => inv.tidsLt t (mem_clearRT ht))
            · intro t ht
              rw [length_setAt]
              rcases List.mem_append.mp ht with h1 | h1
              · exact inv.ridsLt t (mem_clearRT h1)
              · rcases List.mem_singleton.mp h1 with rfl
                exact getAt_lt hgr
          · rw [handleGameEmojiLocked_wrongstate c em hlk hgr hst]
            exact inv


theorem inv_startGame (c : Config) (inv : Inv c) (rc : String) (tr : Nat)
    (wl : List String) : Inv (handleGameStartGame c rc tr wl) := by
  cases hlk : lookupReg c.registry rc with
  | none =>
      rw [handleGameStartGame_noroom c tr wl hlk]
      exact inv
  | some rid =>
      cases hgr : getAt c.heap rid with
      | none =>
          rw [handleGameStartGame_badheap c tr wl hlk hgr]
          exact inv
      | some r =>
          by_cases hst : r.state = GState.waiting
          · obtain ⟨hcg0, hrt0, hcr0, hsc0⟩ := inv.waitInit rid r hgr hst
            have hpend0 : pendingT c.timers rid = [] :=
              ((inv.timerCorr rid r hgr).1 hst).1
            rw [handleGameStartGame_go c tr wl hlk hgr hst]
            have hlen : rid < c.heap.length := getAt_lt hgr
            have hgr1 : getAt
                (setAt c.heap rid { r with
                  totalRounds := tr, wordList := wl, currentRound := 0,
                  currentMakerIndex := 0, state := GState.making }) rid =
                some { r with
                  totalRounds := tr, wordList := wl, currentRound := 0,
                  currentMakerIndex := 0, state := GState.making } :=
              getAt_setAt_self _ hlen
            refine inv_startGameRound ?_ hgr1 (fun hf => GState.noConfusion hf)
              hrt0 ?_
            · refine { regHeap := ?_, regBack := ?_, playersNE := ?_,
                       makerLt := ?_, makerNotCG := ?_, waitInit := ?_,
                       timerOther := ?_, tidsLt := ?_, tidsNodup := ?_,
                       ridsLt := ?_ } <;> dsimp only
              · intro code rid0 hl
                obtain ⟨r0, hg0, hc0, hs0⟩ := inv.regHeap code rid0 hl
                by_cases hi : rid0 = rid
                · subst hi
                  rw [hgr] at hg0
                  cases hg0
                  exact ⟨_, getAt_setAt_self _ hlen, hc0,
                    fun hf => GState.noConfusion hf⟩
                · exact ⟨r0, by rw [getAt_setAt_ne _ _ fun hh => hi hh.symm]; exact hg0,
                         hc0, hs0⟩
              · refine forall_getAt_setAt (fun i r0 hg0 hi hs => ?_) (fun hl2 hs => ?_)
                · exact inv.regBack i r0 hg0 hs
                · exact inv.regBack rid r hgr (by rw [hst]; decide)
              · refine forall_getAt_setAt (fun i r0 hg0 hi => ?_) (fun hl2 => ?_)
                · exact inv.playersNE i r0 hg0
                · exact inv.playersNE rid r hgr
              · refine forall_getAt_setAt (fun i r0 hg0 hi => ?_) (fun hl2 => ?_)
                · exact inv.makerLt i r0 hg0
                · exact List.length_pos.mpr (inv.playersNE rid r hgr)
              · refine forall_getAt_setAt (fun i r0 hg0 hi => ?_) (fun hl2 => ?_)
                · exact inv.makerNotCG i r0 hg0
                · intro n hn
                  rw [hcg0] at hn
                  cases hn
              · refine forall_getAt_setAt (fun i r0 hg0 hi hw => ?_) (fun hl2 hw => ?_)
                · exact inv.waitInit i r0 hg0 hw
                · exact GState.noConfusion hw
              · intro rid2 r2 hne hg2
                rw [getAt_setAt_ne _ _ (fun hh => hne hh.symm)] at hg2
                exact inv.timerCorr rid2 r2 hg2
              · exact inv.tidsLt
              · exact inv.tidsNodup
              · intro t ht
                rw [length_setAt]
                exact inv.ridsLt t ht
            · exact hpend0
          · rw [handleGameStartGame_wrongstate c tr wl hlk hgr hst]
            exact inv


theorem setAt_getAt_same {α : Type} : ∀ {l : List α} {i : Nat} {a : α},
    getAt l i = some a → setAt l i a = l := by
  intro l
  induction l with
  | nil => intro i a h; rfl
  | cons x xs ih =>
      intro i a h
      cases i with
      | zero =>
          simp only [getAt] at h
          cases h
          rfl
      | succ n =>
          simp only [getAt] at h
          simp only [setAt, ih h]

theorem inv_guess_correct (c : Config) (inv : Inv c) {rid : Nat} {r : Room}
    {guesser : String} {mp : Player} (gs : String)
    (hgr : getAt c.heap rid = some r) (hst : r.state = GState.guessing)
    (hmp : getAt r.players r.currentMakerIndex = some mp)
    (hnm : guesser ≠ mp.name)
    (hcg : memStr r.correctGuessers guesser = false) :
    Inv (if (r.correctGuessers ++ [guesser]).length ≥
          ((updFirst (updFirst r.players guesser
              (scoreForGuess (r.correctGuessers ++ [guesser]).length))
              mp.name 150).filter fun q => !(some q.name == some mp.name)).length
        then
          endGameRound
            { c with
              heap := setAt c.heap rid { r with
                correctGuessers := r.correctGuessers ++ [guesser],
                players := updFirst (updFirst r.players guesser
                  (scoreForGuess (r.correctGuessers ++ [guesser]).length))
                  mp.name 150 },
              log := c.log ++ (updFirst (updFirst r.players guesser
                  (scoreForGuess (r.correctGuessers ++ [guesser]).length))
                  mp.name 150).map fun q =>
                OutMsg.guessResult q.name guesser gs true
                  (scoreForGuess (r.correctGuessers ++ [guesser]).length) }
            rid (some guesser)
        else
          { c with
            heap := setAt c.heap rid { r with
              correctGuessers := r.correctGuessers ++ [guesser],
              players := updFirst (updFirst r.players guesser
                (scoreForGuess (r.correctGuessers ++ [guesser]).length))
                mp.name 150 },
            log := c.log ++ (updFirst (updFirst r.players guesser
                (scoreForGuess (r.correctGuessers ++ [guesser]).length))
                mp.name 150).map fun q =>
              OutMsg.guessResult q.name guesser gs true
                (scoreForGuess (r.correctGuessers ++ [guesser]).length) }) := by
  obtain ⟨tid0, hrt, hpend⟩ := (inv.timerCorr rid r hgr).2.2.2.1 hst
  set pts := scoreForGuess (r.correctGuessers ++ [guesser]).length with hpts
  set ps2 := updFirst (updFirst r.players guesser pts) mp.name 150 with hps2
  have hlen2 : ps2.length = r.players.length := by
    rw [hps2, length_updFirst, length_updFirst]
  have hnames : ∀ i, (getAt ps2 i).map Player.name =
      (getAt r.players i).map Player.name := by
    intro i
    rw [hps2, getAt_updFirst_name, getAt_updFirst_name]
  set r1 : Room := { r with
    correctGuessers := r.correctGuessers ++ [guesser],
    players := ps2 } with hr1
  have hmk1 : r1.makerName = some mp.name := by
    unfold Room.makerName
    rw [hr1]
    dsimp only
    rw [hnames r.currentMakerIndex, hmp]
    rfl
  have hmk0 : r.makerName = some mp.name := by
    unfold Room.makerName
    rw [hmp]
    rfl
  have hlen : rid < c.heap.length := getAt_lt hgr
  have hb1 : InvBase { c with
      heap := setAt c.heap rid r1,
      log := c.log ++ ps2.map fun q =>
        OutMsg.guessResult q.name guesser gs true pts } rid := by
    refine { regHeap := ?_, regBack := ?_, playersNE := ?_, makerLt := ?_,
             makerNotCG := ?_, waitInit := ?_, timerOther := ?_,
             tidsLt := ?_, tidsNodup := ?_, ridsLt := ?_ } <;> dsimp only
    · intro code rid0 hl
      obtain ⟨r0, hg0, hc0, hs0⟩ := inv.regHeap code rid0 hl
      by_cases hi : rid0 = rid
      · subst hi
        rw [hgr] at hg0
        cases hg0
        refine ⟨r1, getAt_setAt_self _ hlen, hc0, ?_⟩
        show r.state ≠ GState.finished
        rw [hst]
        decide
      · exact ⟨r0, by rw [getAt_setAt_ne _ _ fun hh => hi hh.symm]; exact hg0,
               hc0, hs0⟩
    · refine forall_getAt_setAt (fun i r0 hg0 hi hs => ?_) (fun hl2 hs => ?_)
      · exact inv.regBack i r0 hg0 hs
      · exact inv.regBack rid r hgr (by rw [hst]; decide)
    · refine forall_getAt_setAt (fun i r0 hg0 hi => ?_) (fun hl2 => ?_)
      · exact inv.playersNE i r0 hg0
      · show ps2 ≠ []
        apply List.length_pos.mp
        rw [hlen2]
        exact List.length_pos.mpr (inv.playersNE rid r hgr)
    · refine forall_getAt_setAt (fun i r0 hg0 hi => ?_) (fun hl2 => ?_)
      · exact inv.makerLt i r0 hg0
      · show r.currentMakerIndex < ps2.length
        rw [hlen2]
        exact inv.makerLt rid r hgr
    · refine forall_getAt_setAt (fun i r0 hg0 hi => ?_) (fun hl2 => ?_)
      · exact inv.makerNotCG i r0 hg0
      · intro n hn
        rw [hmk1]
        rcases List.mem_append.mp hn with h1 | h1
        · have h2 := inv.makerNotCG rid r hgr n h1
          rw [hmk0] at h2
          exact h2
        · rcases List.mem_singleton.mp h1 with rfl
          exact fun hh => hnm (Option.some.inj hh)
    · refine forall_getAt_setAt (fun i r0 hg0 hi hw => ?_) (fun hl2 hw => ?_)
      · exact inv.waitInit i r0 hg0 hw
      · exact absurd hw (by show r.state ≠ GState.waiting; rw [hst]; decide)
    · intro rid2 r2 hne hg2
      rw [getAt_setAt_ne _ _ (fun hh => hne hh.symm)] at hg2
      exact inv.timerCorr rid2 r2 hg2
    · exact inv.tidsLt
    · exact inv.tidsNodup
    · intro t ht
      rw [length_setAt]
      exact inv.ridsLt t ht
  have hgr1 : getAt (setAt c.heap rid r1) rid = some r1 :=
    getAt_setAt_self _ hlen
  by_cases hend : (r.correctGuessers ++ [guesser]).length ≥
      (ps2.filter fun q => !(some q.name == some mp.name)).length
  · rw [if_pos hend]
    refine inv_endGameRound (some guesser) hb1 hgr1 ?_ ?_ ?_
    · show r.state ≠ GState.finished
      rw [hst]
      decide
    · show clearRT (pendingT c.timers rid) r.roundTimer = []
      rw [hrt, hpend]
      simp [clearRT, removeTimer]
    · show ∀ t ∈ c.timers, t.rid ≠ rid → ∀ tid1,
        r.roundTimer = some tid1 → t.tid ≠ tid1
      intro t ht hrid tid1 hrt1
      rw [hrt] at hrt1
      cases hrt1
      exact owner_unique inv.tidsNodup hpend t ht hrid
  · rw [if_neg hend]
    refine { regHeap := hb1.regHeap, regBack := hb1.regBack,
             playersNE := hb1.playersNE, makerLt := hb1.makerLt,
             makerNotCG := hb1.makerNotCG, waitInit := hb1.waitInit,
             timerCorr := ?_, tidsLt := hb1.tidsLt,
             tidsNodup := hb1.tidsNodup, ridsLt := hb1.ridsLt }
    refine forall_getAt_setAt (fun i r0 hg0 hi => ?_) (fun hl2 => ?_)
    · exact hb1.timerOther i r0 hi (by
        show getAt (setAt c.heap rid r1) i = some r0
        rw [getAt_setAt_ne _ _ fun hh => hi hh.symm]
        exact hg0)
    · exact TimerSpec_of_guessing hst hrt hpend


theorem inv_guess (c : Config) (inv : Inv c) (rc guesser : String)
    (g : Option String) : Inv (handleGamePlayerGuess c rc guesser g) := by
  cases hlk : lookupReg c.registry rc with
  | none =>
      rw [handleGamePlayerGuess_noroom c guesser g hlk]
      exact inv
  | some rid =>
      cases hgr : getAt c.heap rid with
      | none =>
          rw [handleGamePlayerGuess_badheap c guesser g hlk hgr]
          exact inv
      | some r =>
          by_cases hst : r.state = GState.guessing
          · by_cases hmg : some guesser = r.makerName
            · rw [handleGamePlayerGuess_maker c g hlk hgr hst hmg]
              exact inv
            · cases hcg : memStr r.correctGuessers guesser with
              | true =>
                  rw [handleGamePlayerGuess_already c g hlk hgr hst hmg hcg]
                  exact inv
              | false =>
                  cases g with
                  | none =>
                      rw [handleGamePlayerGuess_missing c hlk hgr hst hmg hcg]
                      exact { regHeap := inv.regHeap, regBack := inv.regBack,
                              playersNE := inv.playersNE, makerLt := inv.makerLt,
                              makerNotCG := inv.makerNotCG, waitInit := inv.waitInit,
                              timerCorr := inv.timerCorr, tidsLt := inv.tidsLt,
                              tidsNodup := inv.tidsNodup, ridsLt := inv.ridsLt }
                  | some gs =>
                      cases hc : jsGuessCorrect gs r.currentWord with
                      | false =>
                          rw [handleGamePlayerGuess_incorrect c hlk hgr hst hmg hcg hc,
                              setAt_getAt_same hgr]
                          exact { regHeap := inv.regHeap, regBack := inv.regBack,
                                  playersNE := inv.playersNE, makerLt := inv.makerLt,
                                  makerNotCG := inv.makerNotCG, waitInit := inv.waitInit,
                                  timerCorr := inv.timerCorr, tidsLt := inv.tidsLt,
                                  tidsNodup := inv.tidsNodup, ridsLt := inv.ridsLt }
                      | true =>
                          obtain ⟨mp, hmp⟩ := getAt_of_lt (inv.makerLt rid r hgr)
                          have hmk : r.makerName = some mp.name := by
                            unfold Room.makerName
                            rw [hmp]
                            rfl
                          have hnm : guesser ≠ mp.name := fun hh =>
                            hmg (by rw [hmk, hh])
                          rw [handleGamePlayerGuess_correct c hlk hgr hst hmk hnm hcg hc]
                          exact inv_guess_correct c inv gs hgr hst hmp hnm hcg
          · rw [handleGamePlayerGuess_wrongstate c guesser g hlk hgr hst]
            exact inv

theorem invBase_removeTimer (c : Config) (inv : Inv c) {rid tid1 : Nat}
    {k : TimerKind} (hpend : pendingT c.timers rid = [⟨tid1, rid, k⟩]) :
    InvBase { c with timers := removeTimer c.timers tid1 } rid := by
  refine { regHeap := inv.regHeap, regBack := inv.regBack,
           playersNE := inv.playersNE, makerLt := inv.makerLt,
           makerNotCG := inv.makerNotCG, waitInit := inv.waitInit,
           timerOther := ?_, tidsLt := ?_, tidsNodup := ?_,
           ridsLt := ?_ } <;> dsimp only
  · intro rid2 r2 hne hg2
    refine TimerSpec_congr ?_ (inv.timerCorr rid2 r2 hg2)
    rw [pendingT_removeTimer]
    exact removeTimer_eq_self fun u hu =>
      owner_unique inv.tidsNodup hpend u (mem_pendingT.mp hu).1
        ((mem_pendingT.mp hu).2 ▸ hne)
  · intro u hu
    exact inv.tidsLt u (mem_removeTimer.mp hu).1
  · exact nodup_tids_removeTimer inv.tidsNodup
  · intro u hu
    exact inv.ridsLt u (mem_removeTimer.mp hu).1

theorem inv_fire (c : Config) (inv : Inv c) (tid : Nat) :
    Inv (fireTimer c tid) := by
  cases hfd : c.timers.find? (fun u => u.tid == tid) with
  | none =>
      rw [fireTimer_notfound c hfd]
      exact inv
  | some t =>
      have htmem : t ∈ c.timers := List.mem_of_find?_eq_some hfd
      have htid : t.tid = tid := by simpa using List.find?_some hfd
      subst htid
      obtain ⟨r, hgr⟩ := getAt_of_lt (inv.ridsLt t htmem)
      have hts := inv.timerCorr t.rid r hgr
      have htp : t ∈ pendingT c.timers t.rid := mem_pendingT.mpr ⟨htmem, rfl⟩
      cases hstate : r.state with
      | waiting =>
          rw [(hts.1 hstate).1] at htp
          cases htp
      | finished =>
          rw [(hts.2.1 hstate).1] at htp
          cases htp
      | making =>
          obtain ⟨tid1, hrt, hpend⟩ := hts.2.2.1 hstate
          rw [hpend] at htp
          have hteq := List.mem_singleton.mp htp
          have hkind : t.kind = TimerKind.making70 := by rw [hteq]
          have htid1 : t.tid = tid1 := by rw [hteq]
          rw [fireTimer_m70 c hfd hkind hgr, if_pos hstate]
          refine inv_endGameRound none (invBase_removeTimer c inv (htid1 ▸ hpend))
            hgr ?_ ?_ ?_
          · rw [hstate]
            decide
          · show clearRT (pendingT (removeTimer c.timers t.tid) t.rid)
              r.roundTimer = []
            rw [pendingT_removeTimer, hpend, hrt, ← htid1]
            simp [removeTimer, clearRT]
          · show ∀ u ∈ removeTimer c.timers t.tid, u.rid ≠ t.rid → ∀ tid2,
              r.roundTimer = some tid2 → u.tid ≠ tid2
            intro u hu hurid tid2 hrt2
            rw [hrt] at hrt2
            cases hrt2
            rw [← htid1]
            exact (mem_removeTimer.mp hu).2
      | guessing =>
          obtain ⟨tid1, hrt, hpend⟩ := hts.2.2.2.1 hstate
          rw [hpend] at htp
          have hteq := List.mem_singleton.mp htp
          have hkind : t.kind = TimerKind.guessing90 := by rw [hteq]
          have htid1 : t.tid = tid1 := by rw [hteq]
          rw [fireTimer_g90 c hfd hkind]
          refine inv_endGameRound none (invBase_removeTimer c inv (htid1 ▸ hpend))
            hgr ?_ ?_ ?_
          · rw [hstate]
            decide
          · show clearRT (pendingT (removeTimer c.timers t.tid) t.rid)
              r.roundTimer = []
            rw [pendingT_removeTimer, hpend, hrt, ← htid1]
            simp [removeTimer, clearRT]
          · show ∀ u ∈ removeTimer c.timers t.tid, u.rid ≠ t.rid → ∀ tid2,
              r.roundTimer = some tid2 → u.tid ≠ tid2
            intro u hu hurid tid2 hrt2
            rw [hrt] at hrt2
            cases hrt2
            rw [← htid1]
            exact (mem_removeTimer.mp hu).2
      | reveal =>
          obtain ⟨hrtn, tid1, hpend⟩ := hts.2.2.2.2 hstate
          rw [hpend] at htp
          have hteq := List.mem_singleton.mp htp
          have hkind : t.kind = TimerKind.reveal6 := by rw [hteq]
          have htid1 : t.tid = tid1 := by rw [hteq]
          rw [fireTimer_r6 c hfd hkind]
          refine inv_startGameRound (invBase_removeTimer c inv (htid1 ▸ hpend))
            hgr ?_ hrtn ?_
          · rw [hstate]
            decide
          · show pendingT (removeTimer c.timers t.tid) t.rid = []
            rw [pendingT_removeTimer, hpend, ← htid1]
            simp [removeTimer]

theorem inv_step (c : Config) (inv : Inv c) (e : GEvent) : Inv (stepEv c e) := by
  cases e with
  | join rc p => exact inv_join c inv rc p
  | startGame rc tr wl => exact inv_startGame c inv rc tr wl
  | emojiLocked rc em => exact inv_emojiLocked c inv rc em
  | playerGuess rc p g => exact inv_guess c inv rc p g
  | readyNextRound => exact inv_ready c inv
  | fire tid => exact inv_fire c inv tid

theorem inv_init : Inv initConfig := by
  refine { regHeap := ?_, regBack := ?_, playersNE := ?_, makerLt := ?_,
           makerNotCG := ?_, waitInit := ?_, timerCorr := ?_,
           tidsLt := ?_, tidsNodup := ?_, ridsLt := ?_ }
  · intro code rid h
    simp [initConfig, lookupReg] at h
  · intro rid r h
    simp [initConfig, getAt] at h
  · intro rid r h
    simp [initConfig, getAt] at h
  · intro rid r h
    simp [initConfig, getAt] at h
  · intro rid r h
    simp [initConfig, getAt] at h
  · intro rid r h
    simp [initConfig, getAt] at h
  · intro rid r h
    simp [initConfig, getAt] at h
  · intro t h
    simp [initConfig] at h
  · simp [initConfig]
  · intro t h
    simp [initConfig] at h

theorem reachable_inv {c : Config} (h : Reachable c) : Inv c := by
  induction h with
  | init => exact inv_init
  | step c e _ ih => exact inv_step c ih e

theorem reachable_runEvents (es : List GEvent) : Reachable (runEvents es) := by
  unfold runEvents
  have h : ∀ (l : List GEvent) (c : Config), Reachable c →
      Reachable (l.foldl stepEv c) := by
    intro l
    induction l with
    | nil => intro c hc; exact hc
    | cons e l ih =>
        intro c hc
        exact ih (stepEv c e) (Reachable.step c e hc)
  exact h es initConfig Reachable.init


/-! Concrete traces used by the claim theorems. -/

/-- Two players join room R, the game starts with one round on the
secret PIZZA, and the maker locks in an emoji: the room is guessing. -/
def guessingTrace : List GEvent :=
  [GEvent.join "R" "A", GEvent.join "R" "B",
   GEvent.startGame "R" 1 ["PIZZA"], GEvent.emojiLocked "R" "E"]

def guessingConfig : Config := runEvents guessingTrace

/-- The room state reached by guessingTrace. -/
def guessingRoom : Room :=
  { code := "R", players := [⟨"A", 0⟩, ⟨"B", 0⟩], state := GState.guessing,
    currentRound := 1, totalRounds := 1, wordList := ["PIZZA"],
    currentMakerIndex := 0, currentWord := "PIZZA", currentEmojis := "E",
    correctGuessers := [], roundTimer := some 1 }

/-- A correct guess from the name C, which is not on the roster. -/
def phantomConfig : Config :=
  stepEv guessingConfig (GEvent.playerGuess "R" "C" (some "pizza"))

/-- The room object after the phantom guess: C entered correctGuessers,
the maker A was paid 150, and the round ended. -/
def phantomRoom : Room :=
  { code := "R", players := [⟨"A", 150⟩, ⟨"B", 0⟩], state := GState.reveal,
    currentRound := 1, totalRounds := 1, wordList := ["PIZZA"],
    currentMakerIndex := 0, currentWord := "PIZZA", currentEmojis := "E",
    correctGuessers := ["C"], roundTimer := none }

/-- The sole non maker B guesses correctly: the round ends. -/
def endedConfig : Config :=
  stepEv guessingConfig (GEvent.playerGuess "R" "B" (some "pizza"))

def endedRoom : Room :=
  { code := "R", players := [⟨"A", 150⟩, ⟨"B", 1000⟩], state := GState.reveal,
    currentRound := 1, totalRounds := 1, wordList := ["PIZZA"],
    currentMakerIndex := 0, currentWord := "PIZZA", currentEmojis := "E",
    correctGuessers := ["B"], roundTimer := none }



/-! Claim theorems. -/

/-- C7: a guess is judged correct by the game_player_guess handler if
and only if its normalization equals the normalization of the secret,
where normalization uppercases, strips every character outside
[A-Z0-9 ], and trims surrounding whitespace; and
normalize("Hot-Dog!! ") = "HOTDOG". -/
theorem claim7_theorem :
    (∀ g w : String,
      (jsGuessCorrect g w = true ↔ specNormalize g = specNormalize w)) ∧
    specNormalize "Hot-Dog!! " = "HOTDOG" := by
  constructor
  · intro g w
    show (jsNormalize g == jsNormalize w) = true ↔
      specNormalize g = specNormalize w
    exact beq_iff_eq
  · decide


/-- Three players, five rounds; no maker ever locks emojis, so every
round ends by the 70 second timeout and the next round starts after the
6 second reveal delay. -/
def rotationTrace : List GEvent :=
  [GEvent.join "R" "A", GEvent.join "R" "B", GEvent.join "R" "C",
   GEvent.startGame "R" 5 ["W1", "W2", "W3", "W4", "W5"],
   GEvent.fire 0, GEvent.fire 1, GEvent.fire 2, GEvent.fire 3,
   GEvent.fire 4, GEvent.fire 5, GEvent.fire 6, GEvent.fire 7,
   GEvent.fire 8, GEvent.fire 9]

def rotationConfig : Config := runEvents rotationTrace

/-- The maker indices announced to player A across the rounds of a run. -/
def makerIndicesSeen (c : Config) : List Nat :=
  c.log.filterMap fun msg =>
    match msg with
    | OutMsg.roundStart dst _ idx _ => if dst = "A" then some idx else none
    | _ => none

/-- The configuration right after game start in the rotation game:
round one is underway. -/
def rotationStartConfig : Config := runEvents
  [GEvent.join "R" "A", GEvent.join "R" "B", GEvent.join "R" "C",
   GEvent.startGame "R" 5 ["W1", "W2", "W3", "W4", "W5"]]

def rotationStartRoom : Room :=
  { code := "R", players := [⟨"A", 0⟩, ⟨"B", 0⟩, ⟨"C", 0⟩],
    state := GState.making, currentRound := 1, totalRounds := 5,
    wordList := ["W1", "W2", "W3", "W4", "W5"], currentMakerIndex := 0,
    currentWord := "W1", currentEmojis := "", correctGuessers := [],
    roundTimer := some 0 }

/-- C8: advancing to round r (when r does not exceed totalRounds) sets
the maker index to (r - 1) mod N for the current roster size N, and in
a three player, five round game the makers across rounds 1 to 5 sit at
indices 0, 1, 2, 0, 1. -/
theorem claim8_theorem :
    (∀ (c : Config) (rid : Nat) (r : Room),
      getAt c.heap rid = some r →
      ¬ r.currentRound + 1 > r.totalRounds →
      ((getAt (startGameRound c rid).heap rid).map Room.currentMakerIndex) =
        some ((r.currentRound + 1 - 1) % r.players.length) ∧
      ((getAt (startGameRound c rid).heap rid).map Room.currentRound) =
        some (r.currentRound + 1)) ∧
    makerIndicesSeen rotationConfig = [0, 1, 2, 0, 1] := by
  constructor
  · intro c rid r hgr hov
    rw [startGameRound_next c hgr hov]
    dsimp only
    rw [getAt_setAt_self _ (getAt_lt hgr)]
    exact ⟨rfl, rfl⟩
  · decide

/-- Witness for C8 at the concrete rotation game: advancing from round
one of the three player game puts round two at maker index 1. -/
theorem claim8_witness :
    ((getAt (startGameRound rotationStartConfig 0).heap 0).map
        Room.currentMakerIndex) =
      some ((rotationStartRoom.currentRound + 1 - 1) %
        rotationStartRoom.players.length) ∧
    ((getAt (startGameRound rotationStartConfig 0).heap 0).map
        Room.currentRound) = some (rotationStartRoom.currentRound + 1) :=
  claim8_theorem.1 rotationStartConfig 0 rotationStartRoom (by decide)
    (by decide)


/-- C1 counterexample: in a reachable guessing room with roster A, B
(maker A, no correct guessers, all scores zero), a game_player_guess
from the non roster name C with a correct guess is not a no-op: C is
added to correctGuessers, the maker score rises by 150, and the round
state moves to reveal. -/
theorem claim1_counterexample :
    Reachable guessingConfig ∧
    guessingConfig.heap.map Room.state = [GState.guessing] ∧
    (guessingConfig.heap.map fun r => r.players.map Player.name) = [["A", "B"]] ∧
    guessingConfig.heap.map Room.correctGuessers = [[]] ∧
    (guessingConfig.heap.map fun r => rosterOf r.players) = [[("A", 0), ("B", 0)]] ∧
    phantomConfig.heap.map Room.correctGuessers = [["C"]] ∧
    (phantomConfig.heap.map fun r => rosterOf r.players) = [[("A", 150), ("B", 0)]] ∧
    phantomConfig.heap.map Room.state = [GState.reveal] :=
  ⟨reachable_runEvents guessingTrace, by decide, by decide, by decide,
   by decide, by decide, by decide, by decide⟩

/-- C1 amended: in every reachable room state, correctGuessers never
contains the current maker name; the subset-of-roster half of the claim
fails because a correct guess from a non roster name is recorded and
pays the maker. -/
theorem claim1_theorem (c : Config) (h : Reachable c) (rid : Nat) (r : Room)
    (hgr : getAt c.heap rid = some r) :
    ∀ n ∈ r.correctGuessers, some n ≠ r.makerName :=
  (reachable_inv h).makerNotCG rid r hgr

/-- Witness for C1 at the reachable configuration after the phantom
guess: C is a correct guesser there and differs from the maker. -/
theorem claim1_witness :
    getAt phantomConfig.heap 0 = some phantomRoom ∧
    some "C" ≠ phantomRoom.makerName :=
  ⟨by decide,
   claim1_theorem phantomConfig
     (Reachable.step guessingConfig (GEvent.playerGuess "R" "C" (some "pizza"))
       (reachable_runEvents guessingTrace)) 0 phantomRoom (by decide) "C"
     (by decide)⟩

/-- C2 counterexample: in the reachable configuration right after a
round ends, the 6 second reveal timer is outstanding while the rooms
roundTimer handle is null, so the outstanding deferred callback is not
the one held in roundTimer. -/
theorem claim2_counterexample :
    Reachable endedConfig ∧
    endedConfig.timers = [⟨2, 0, TimerKind.reveal6⟩] ∧
    endedConfig.heap.map Room.roundTimer = [none] :=
  ⟨Reachable.step guessingConfig (GEvent.playerGuess "R" "B" (some "pizza"))
     (reachable_runEvents guessingTrace), by decide, by decide⟩

/-- C2 amended: per room at most one deferred callback is outstanding;
during making and guessing it is the one held in roundTimer, while
during reveal the pending 6 second timer is not stored and roundTimer
is null. -/
theorem claim2_theorem (c : Config) (h : Reachable c) (rid : Nat) (r : Room)
    (hgr : getAt c.heap rid = some r) :
    (pendingT c.timers rid).length ≤ 1 ∧
    (∀ t ∈ pendingT c.timers rid,
      r.state = GState.making ∨ r.state = GState.guessing →
        r.roundTimer = some t.tid) ∧
    (r.state = GState.reveal → r.roundTimer = none) := by
  have hts := (reachable_inv h).timerCorr rid r hgr
  cases hstate : r.state with
  | waiting =>
      rw [(hts.1 hstate).1]
      exact ⟨Nat.zero_le 1, fun t ht => absurd ht (List.not_mem_nil t),
        fun hh => absurd hh (by decide)⟩
  | finished =>
      rw [(hts.2.1 hstate).1]
      exact ⟨Nat.zero_le 1, fun t ht => absurd ht (List.not_mem_nil t),
        fun hh => absurd hh (by decide)⟩
  | making =>
      obtain ⟨tid0, hrt, hpend⟩ := hts.2.2.1 hstate
      rw [hpend]
      refine ⟨Nat.le_refl 1, ?_,
        fun hh => absurd hh (by decide)⟩
      intro t ht _
      rcases List.mem_singleton.mp ht with rfl
      exact hrt
  | guessing =>
      obtain ⟨tid0, hrt, hpend⟩ := hts.2.2.2.1 hstate
      rw [hpend]
      refine ⟨Nat.le_refl 1, ?_,
        fun hh => absurd hh (by decide)⟩
      intro t ht _
      rcases List.mem_singleton.mp ht with rfl
      exact hrt
  | reveal =>
      obtain ⟨hrtn, tid0, hpend⟩ := hts.2.2.2.2 hstate
      rw [hpend]
      refine ⟨Nat.le_refl 1, ?_, fun _ => hrtn⟩
      intro t ht hmk
      rcases hmk with hh | hh
      · exact absurd hh (by decide)
      · exact absurd hh (by decide)

/-- Witness for C2 at the reachable guessing configuration. -/
theorem claim2_witness :
    (pendingT guessingConfig.timers 0).length ≤ 1 :=
  (claim2_theorem guessingConfig (reachable_runEvents guessingTrace) 0
    guessingRoom (by decide)).1


/-- A room object that has already been removed from the registry while
a reveal timer that captured it is still pending: the configuration the
claim about post removal firings describes. -/
def zombieRoom : Room :=
  { code := "R", players := [⟨"A", 150⟩, ⟨"B", 1000⟩], state := GState.reveal,
    currentRound := 1, totalRounds := 1, wordList := ["PIZZA"],
    currentMakerIndex := 0, currentWord := "PIZZA", currentEmojis := "E",
    correctGuessers := ["B"], roundTimer := none }

def zombieConfig : Config :=
  { heap := [zombieRoom], registry := [], timers := [⟨2, 0, TimerKind.reveal6⟩],
    nextTid := 3, log := [] }

/-- C3 counterexample: the timer callbacks capture the room object and
never consult the registry, so a reveal timer firing against a room
absent from the registry is not a no-op: it mutates the captured room
(here finishing the game) and sends messages. -/
theorem claim3_counterexample :
    lookupReg zombieConfig.registry "R" = none ∧
    (fireTimer zombieConfig 2).log =
      [OutMsg.gameOver "A" [("A", 150), ("B", 1000)],
       OutMsg.gameOver "B" [("A", 150), ("B", 1000)]] ∧
    (fireTimer zombieConfig 2).heap.map Room.state = [GState.finished] :=
  ⟨by decide, by decide, by decide⟩

/-- C3 amended: a deferred round timer never fires after its room has
been removed from the registry, because in every reachable
configuration every pending timer belongs to a room still present in
the registry; the callbacks themselves perform no registry check, and
run against a removed room object they mutate it and send messages. -/
theorem claim3_theorem (c : Config) (h : Reachable c) (t : Timer)
    (ht : t ∈ c.timers) (r : Room) (hgr : getAt c.heap t.rid = some r) :
    lookupReg c.registry r.code = some t.rid := by
  have inv := reachable_inv h
  refine inv.regBack t.rid r hgr ?_
  intro hfin
  have htp : t ∈ pendingT c.timers t.rid := mem_pendingT.mpr ⟨ht, rfl⟩
  rw [((inv.timerCorr t.rid r hgr).2.1 hfin).1] at htp
  cases htp

/-- Witness for C3 at the reachable guessing configuration, whose 90
second timer points at the registered room R. -/
theorem claim3_witness :
    lookupReg guessingConfig.registry guessingRoom.code = some 0 :=
  claim3_theorem guessingConfig (reachable_runEvents guessingTrace)
    ⟨1, 0, TimerKind.guessing90⟩ (by decide) guessingRoom (by decide)


/-- C4 counterexample: a game_join addressed to the reachable room R
while it is in guessing state is not dropped: the participant C is
appended to the roster and both existing players are notified. -/
theorem claim4_counterexample :
    Reachable guessingConfig ∧
    guessingConfig.heap.map Room.state = [GState.guessing] ∧
    ((stepEv guessingConfig (GEvent.join "R" "C")).heap.map
        fun r => r.players.map Player.name) = [["A", "B", "C"]] ∧
    (stepEv guessingConfig (GEvent.join "R" "C")).log =
      guessingConfig.log ++
        [OutMsg.playerJoined "A" "C", OutMsg.playerJoined "B" "C"] :=
  ⟨reachable_runEvents guessingTrace, by decide, by decide, by decide⟩

/-- C4 amended: a game_join to an existing room consults only the
roster, never the room state: a duplicate name is dropped, and any
other nonempty name is appended with the existing players notified,
whatever state the room is in. -/
theorem claim4_theorem (c : Config) (rc p : String) (rid : Nat) (r : Room)
    (hne : ¬ (rc = "" ∨ p = ""))
    (hlk : lookupReg c.registry rc = some rid)
    (hgr : getAt c.heap rid = some r) :
    (hasName r.players p = true → handleGameJoin c rc p = c) ∧
    (hasName r.players p = false →
      handleGameJoin c rc p =
        { c with
          heap := setAt c.heap rid { r with players := r.players ++ [⟨p, 0⟩] },
          log := c.log ++ r.players.map fun q => OutMsg.playerJoined q.name p }) :=
  ⟨fun h => handleGameJoin_dup c hne hlk hgr h,
   fun h => handleGameJoin_append c hne hlk hgr h⟩

/-- Witness for C4: joining C into the guessing room appends the
player and notifies A and B even though the state is not waiting. -/
theorem claim4_witness :
    handleGameJoin guessingConfig "R" "C" =
      { guessingConfig with
        heap := setAt guessingConfig.heap 0
          { guessingRoom with players := guessingRoom.players ++ [⟨"C", 0⟩] },
        log := guessingConfig.log ++
          guessingRoom.players.map fun q => OutMsg.playerJoined q.name "C" } :=
  (claim4_theorem guessingConfig "R" "C" 0 guessingRoom (by decide)
    (by decide) (by decide)).2 (by decide)

/-- C5 counterexample: a game_player_guess whose guess field is missing
reaches the toUpperCase property read, throws, and the catch-all sends
a Server error reply to the originating participant, so a reply is sent
for a failing game event. -/
theorem claim5_counterexample :
    Reachable guessingConfig ∧
    (stepEv guessingConfig (GEvent.playerGuess "R" "B" none)).log =
      guessingConfig.log ++ [OutMsg.errorToSender
        "Server error: Cannot read properties of undefined (reading toUpperCase)"] :=
  ⟨reachable_runEvents guessingTrace, by decide⟩

/-- C5 amended: a game event addressed to no room or to a room in an
incompatible state is silently dropped with no reply of any kind, but a
malformed game_player_guess whose guess field is missing throws inside
the handler and the catch-all replies with a Server error message to
the originating participant. -/
theorem claim5_theorem (c : Config) (rc guesser : String) (g : Option String)
    (rid : Nat) (r : Room) :
    (lookupReg c.registry rc = none → handleGamePlayerGuess c rc guesser g = c) ∧
    (lookupReg c.registry rc = some rid → getAt c.heap rid = some r →
      r.state ≠ GState.guessing → handleGamePlayerGuess c rc guesser g = c) ∧
    (lookupReg c.registry rc = some rid → getAt c.heap rid = some r →
      r.state = GState.guessing → ¬ some guesser = r.makerName →
      memStr r.correctGuessers guesser = false →
      handleGamePlayerGuess c rc guesser none =
        { c with log := c.log ++ [OutMsg.errorToSender
            "Server error: Cannot read properties of undefined (reading toUpperCase)"] }) :=
  ⟨fun h => handleGamePlayerGuess_noroom c guesser g h,
   fun h1 h2 h3 => handleGamePlayerGuess_wrongstate c guesser g h1 h2 h3,
   fun h1 h2 h3 h4 h5 => handleGamePlayerGuess_missing c h1 h2 h3 h4 h5⟩

/-- Witness for C5: the malformed guess from B in the reachable
guessing room produces exactly one Server error reply. -/
theorem claim5_witness :
    handleGamePlayerGuess guessingConfig "R" "B" none =
      { guessingConfig with log := guessingConfig.log ++ [OutMsg.errorToSender
          "Server error: Cannot read properties of undefined (reading toUpperCase)"] } :=
  (claim5_theorem guessingConfig "R" "B" none 0 guessingRoom).2.2 (by decide)
    (by decide) (by decide) (by decide) (by decide)


/-- The spec scoring example: four players, secret PIZZA, guesses
pizza, Piz za!, PIZZA by B, C, D in that order. -/
def pizzaTrace : List GEvent :=
  [GEvent.join "R" "A", GEvent.join "R" "B", GEvent.join "R" "C",
   GEvent.join "R" "D", GEvent.startGame "R" 1 ["PIZZA"],
   GEvent.emojiLocked "R" "E",
   GEvent.playerGuess "R" "B" (some "pizza"),
   GEvent.playerGuess "R" "C" (some "Piz za!"),
   GEvent.playerGuess "R" "D" (some "PIZZA ")]

def pizzaConfig : Config := runEvents pizzaTrace

/-- C6 counterexample: in the cited example the second guess Piz za!
normalizes to PIZ ZA, not PIZZA, because the replace step keeps spaces;
it is judged incorrect and awarded 0, so the three guesses earn
1000, 0, 700 and the maker gains 300, not 1000, 700, 400 with a 450
maker bonus. -/
theorem claim6_counterexample :
    Reachable pizzaConfig ∧
    jsNormalize "Piz za!" = "PIZ ZA" ∧
    OutMsg.guessResult "A" "C" "Piz za!" false 0 ∈ pizzaConfig.log ∧
    (pizzaConfig.heap.map fun r => rosterOf r.players) =
      [[("A", 300), ("B", 1000), ("C", 0), ("D", 700)]] :=
  ⟨reachable_runEvents pizzaTrace, by decide, by decide, by decide⟩

/-- C6 amended: the n-th distinct correct guesser of a round earns
max(200, 1000 - (n-1)*300) points and the maker earns 150 per distinct
correct guesser, but in the cited example the guess Piz za! is judged
incorrect (spaces survive normalization), so the awards are 1000, 0,
700 with a maker bonus of 300. -/
theorem claim6_theorem :
    (∀ (c : Config) (rc guesser g : String) (rid : Nat) (r : Room)
      (m : String),
      lookupReg c.registry rc = some rid → getAt c.heap rid = some r →
      r.state = GState.guessing → r.makerName = some m → guesser ≠ m →
      memStr r.correctGuessers guesser = false →
      jsGuessCorrect g r.currentWord = true →
      ((getAt (handleGamePlayerGuess c rc guesser (some g)).heap rid).map
          Room.correctGuessers) = some (r.correctGuessers ++ [guesser]) ∧
      ((getAt (handleGamePlayerGuess c rc guesser (some g)).heap rid).map
          fun r2 => scoreOf r2.players guesser) =
        some ((scoreOf r.players guesser).map
          (· + scoreForGuess (r.correctGuessers.length + 1))) ∧
      ((getAt (handleGamePlayerGuess c rc guesser (some g)).heap rid).map
          fun r2 => scoreOf r2.players m) =
        some ((scoreOf r.players m).map (· + 150))) ∧
    scoreForGuess 1 = 1000 ∧ scoreForGuess 2 = 700 ∧ scoreForGuess 3 = 400 ∧
    scoreForGuess 4 = 200 ∧ scoreForGuess 6 = 200 ∧
    (pizzaConfig.heap.map fun r => rosterOf r.players) =
      [[("A", 300), ("B", 1000), ("C", 0), ("D", 700)]] := by
  refine ⟨?_, by decide, by decide, by decide, by decide, by decide, by decide⟩
  intro c rc guesser g rid r m hlk hgr hst hmk hnm hcg hc
  rw [handleGamePlayerGuess_correct c hlk hgr hst hmk hnm hcg hc]
  dsimp only
  have hlenapp : (r.correctGuessers ++ [guesser]).length =
      r.correctGuessers.length + 1 := by
    rw [List.length_append]
    rfl
  have hs1 : scoreOf (updFirst (updFirst r.players guesser
      (scoreForGuess (r.correctGuessers ++ [guesser]).length)) m 150) guesser =
      (scoreOf r.players guesser).map
        (· + scoreForGuess (r.correctGuessers.length + 1)) := by
    rw [scoreOf_updFirst_ne _ _ hnm, scoreOf_updFirst_self, hlenapp]
  have hs2 : scoreOf (updFirst (updFirst r.players guesser
      (scoreForGuess (r.correctGuessers ++ [guesser]).length)) m 150) m =
      (scoreOf r.players m).map (· + 150) := by
    rw [scoreOf_updFirst_self, scoreOf_updFirst_ne _ _ (fun hh => hnm hh.symm)]
  by_cases hend : (r.correctGuessers ++ [guesser]).length ≥
      ((updFirst (updFirst r.players guesser
        (scoreForGuess (r.correctGuessers ++ [guesser]).length)) m 150).filter
          fun q => !(some q.name == some m)).length
  · rw [if_pos hend]
    rw [endGameRound_eq _ (some guesser) (getAt_setAt_self _ (getAt_lt hgr))]
    dsimp only
    rw [getAt_setAt_self]
    · exact ⟨rfl, congrArg some hs1, congrArg some hs2⟩
    · rw [length_setAt]
      exact getAt_lt hgr
  · rw [if_neg hend]
    dsimp only
    rw [getAt_setAt_self _ (getAt_lt hgr)]
    exact ⟨rfl, congrArg some hs1, congrArg some hs2⟩

/-- Witness for C6: the first correct guess in the reachable guessing
room records B, pays B the rank one award, and pays the maker A 150. -/
theorem claim6_witness :
    ((getAt (handleGamePlayerGuess guessingConfig "R" "B"
        (some "pizza")).heap 0).map Room.correctGuessers) =
      some (guessingRoom.correctGuessers ++ ["B"]) ∧
    ((getAt (handleGamePlayerGuess guessingConfig "R" "B"
        (some "pizza")).heap 0).map fun r2 => scoreOf r2.players "B") =
      some ((scoreOf guessingRoom.players "B").map
        (· + scoreForGuess (guessingRoom.correctGuessers.length + 1))) ∧
    ((getAt (handleGamePlayerGuess guessingConfig "R" "B"
        (some "pizza")).heap 0).map fun r2 => scoreOf r2.players "A") =
      some ((scoreOf guessingRoom.players "A").map (· + 150)) :=
  claim6_theorem.1 guessingConfig "R" "B" "pizza" 0 guessingRoom "A"
    (by decide) (by decide) (by decide) (by decide) (by decide) (by decide)
    (by decide)


theorem length_filter_nonmaker : ∀ (l : List Player) (nm : String) (d : Int)
    (m : String),
    ((updFirst l nm d).filter fun q => !(some q.name == some m)).length =
    (l.filter fun q => !(some q.name == some m)).length := by
  intro l nm d m
  induction l with
  | nil => rfl
  | cons p ps ih =>
      by_cases h : p.name = nm
      · cases hq : p.name == m <;>
          simp [updFirst, if_pos h, List.filter, hq, ih]
      · have ih2 : (List.filter (fun q => !(q.name == m)) (updFirst ps nm d)).length =
            (List.filter (fun q => !(q.name == m)) ps).length := by
          simpa using ih
        cases hq : p.name == m <;>
          simp [updFirst, if_neg h, List.filter, hq, ih2]

/-- C9 counterexample: the reachable guessing room has sole non maker
B, yet a correct guess from the non roster name C raises the size of
correctGuessers to the non maker count and ends the round with winner
C while B never guessed correctly. -/
theorem claim9_counterexample :
    Reachable guessingConfig ∧
    guessingConfig.heap.map Room.correctGuessers = [[]] ∧
    (guessingConfig.heap.map fun r => r.players.map Player.name) = [["A", "B"]] ∧
    phantomConfig.heap.map Room.state = [GState.reveal] ∧
    phantomConfig.heap.map Room.correctGuessers = [["C"]] ∧
    OutMsg.roundEnd "B" (some "C") "PIZZA" [("A", 150), ("B", 0)]
      ∈ phantomConfig.log :=
  ⟨reachable_runEvents guessingTrace, by decide, by decide, by decide,
   by decide, by decide⟩

/-- C9 amended: after a fresh correct non maker guess, the round ends
early exactly when the size of correctGuessers (which may contain non
roster names) reaches the number of non maker roster entries, and every
round_end broadcast emitted by that step reports the completing guesser
as the winner. -/
theorem claim9_theorem (c : Config) (rc guesser g : String) (rid : Nat)
    (r : Room) (m : String)
    (hlk : lookupReg c.registry rc = some rid)
    (hgr : getAt c.heap rid = some r) (hst : r.state = GState.guessing)
    (hmk : r.makerName = some m) (hnm : guesser ≠ m)
    (hcg : memStr r.correctGuessers guesser = false)
    (hc : jsGuessCorrect g r.currentWord = true) :
    ((getAt (handleGamePlayerGuess c rc guesser (some g)).heap rid).map
        Room.state) =
      some (if (r.correctGuessers ++ [guesser]).length ≥
              (r.players.filter fun q => !(some q.name == some m)).length
            then GState.reveal else GState.guessing) ∧
    (∀ dst wn wd sc, OutMsg.roundEnd dst wn wd sc ∈
        (handleGamePlayerGuess c rc guesser (some g)).log →
      OutMsg.roundEnd dst wn wd sc ∈ c.log ∨ wn = some guesser) := by
  rw [handleGamePlayerGuess_correct c hlk hgr hst hmk hnm hcg hc]
  dsimp only
  have hflt : ((updFirst (updFirst r.players guesser
      (scoreForGuess (r.correctGuessers ++ [guesser]).length)) m 150).filter
        fun q => !(some q.name == some m)).length =
      (r.players.filter fun q => !(some q.name == some m)).length := by
    rw [length_filter_nonmaker, length_filter_nonmaker]
  by_cases hend : (r.correctGuessers ++ [guesser]).length ≥
      ((updFirst (updFirst r.players guesser
        (scoreForGuess (r.correctGuessers ++ [guesser]).length)) m 150).filter
          fun q => !(some q.name == some m)).length
  · rw [if_pos hend]
    rw [endGameRound_eq _ (some guesser) (getAt_setAt_self _ (getAt_lt hgr))]
    dsimp only
    rw [hflt] at hend
    constructor
    · rw [getAt_setAt_self, if_pos hend]
      · rfl
      · rw [length_setAt]
        exact getAt_lt hgr
    · intro dst wn wd sc hmem
      rcases List.mem_append.mp hmem with h1 | h1
      · rcases List.mem_append.mp h1 with h2 | h2
        · exact Or.inl h2
        · rcases List.mem_map.mp h2 with ⟨q, hq, heq⟩
          exact OutMsg.noConfusion heq
      · rcases List.mem_map.mp h1 with ⟨q, hq, heq⟩
        obtain ⟨h3, h4, h5, h6⟩ := OutMsg.roundEnd.inj heq
        exact Or.inr h4.symm
  · rw [if_neg hend]
    rw [hflt] at hend
    constructor
    · rw [getAt_setAt_self _ (getAt_lt hgr), if_neg hend]
      exact congrArg some hst
    · intro dst wn wd sc hmem
      rcases List.mem_append.mp hmem with h1 | h1
      · exact Or.inl h1
      · rcases List.mem_map.mp h1 with ⟨q, hq, heq⟩
        exact OutMsg.noConfusion heq

/-- Witness for C9: the guess from B in the reachable guessing room
reaches the single non maker threshold, so the state moves to reveal. -/
theorem claim9_witness :
    ((getAt (handleGamePlayerGuess guessingConfig "R" "B"
        (some "pizza")).heap 0).map Room.state) =
      some (if (guessingRoom.correctGuessers ++ ["B"]).length ≥
              (guessingRoom.players.filter
                fun q => !(some q.name == some "A")).length
            then GState.reveal else GState.guessing) :=
  (claim9_theorem guessingConfig "R" "B" "pizza" 0 guessingRoom "A"
    (by decide) (by decide) (by decide) (by decide) (by decide) (by decide)
    (by decide)).1


/-- Two players join room R and nothing else happens: the room waits. -/
def waitConfig : Config := runEvents [GEvent.join "R" "A", GEvent.join "R" "B"]

def waitRoom : Room :=
  { code := "R", players := [⟨"A", 0⟩, ⟨"B", 0⟩], state := GState.waiting,
    currentRound := 0, totalRounds := 0, wordList := [],
    currentMakerIndex := 0, currentWord := "", currentEmojis := "",
    correctGuessers := [], roundTimer := none }

/-- C10: a game_start_game with totalRounds zero addressed to a
reachable waiting room broadcasts game_game_started, then
game_game_over with every score zero, removes the room from the
registry, and appends no round_start message. -/
theorem claim10_theorem (c : Config) (h : Reachable c) (rc : String)
    (wl : List String) (rid : Nat) (r : Room)
    (hlk : lookupReg c.registry rc = some rid)
    (hgr : getAt c.heap rid = some r) (hst : r.state = GState.waiting) :
    lookupReg (stepEv c (GEvent.startGame rc 0 wl)).registry rc = none ∧
    (stepEv c (GEvent.startGame rc 0 wl)).log =
      c.log ++ (r.players.map fun q => OutMsg.gameStarted q.name 0
          (r.players.map fun q2 => (q2.name, (0 : Int))))
        ++ (r.players.map fun q => OutMsg.gameOver q.name
          (r.players.map fun q2 => (q2.name, (0 : Int)))) ∧
    (∀ dst round idx wd, OutMsg.roundStart dst round idx wd ∈
        (stepEv c (GEvent.startGame rc 0 wl)).log →
      OutMsg.roundStart dst round idx wd ∈ c.log) := by
  have inv := reachable_inv h
  obtain ⟨hcg0, hrt0, hcr0, hsc0⟩ := inv.waitInit rid r hgr hst
  obtain ⟨r', hg', hc', hs'⟩ := inv.regHeap rc rid hlk
  rw [hgr] at hg'
  cases hg'
  simp only [stepEv]
  rw [handleGameStartGame_go c 0 wl hlk hgr hst]
  rw [startGameRound_over _ (getAt_setAt_self _ (getAt_lt hgr))
    (by exact Nat.one_pos)]
  dsimp only
  have hzero : rosterOf r.players = r.players.map fun q2 => (q2.name, (0 : Int)) := by
    unfold rosterOf
    apply List.map_congr_left
    intro q hq
    rw [hsc0 q hq]
  refine ⟨?_, ?_, ?_⟩
  · rw [lookupReg_removeCode, if_pos hc'.symm]
  · show c.log ++ (r.players.map fun q => OutMsg.gameStarted q.name 0
          (r.players.map fun q2 => (q2.name, (0 : Int))))
        ++ (r.players.map fun q => OutMsg.gameOver q.name (rosterOf r.players))
      = _
    rw [hzero]
  · intro dst round idx wd hmem
    rcases List.mem_append.mp hmem with h1 | h1
    · rcases List.mem_append.mp h1 with h2 | h2
      · exact h2
      · rcases List.mem_map.mp h2 with ⟨q, hq, heq⟩
        exact OutMsg.noConfusion heq
    · rcases List.mem_map.mp h1 with ⟨q, hq, heq⟩
      exact OutMsg.noConfusion heq

/-- Witness for C10 at the reachable waiting room with players A, B:
starting with zero rounds finishes the game at once. -/
theorem claim10_witness :
    lookupReg (stepEv waitConfig (GEvent.startGame "R" 0 ["X"])).registry "R"
      = none ∧
    (stepEv waitConfig (GEvent.startGame "R" 0 ["X"])).log =
      waitConfig.log ++ (waitRoom.players.map fun q =>
          OutMsg.gameStarted q.name 0
            (waitRoom.players.map fun q2 => (q2.name, (0 : Int))))
        ++ (waitRoom.players.map fun q => OutMsg.gameOver q.name
          (waitRoom.players.map fun q2 => (q2.name, (0 : Int)))) :=
  ⟨(claim10_theorem waitConfig
      (reachable_runEvents [GEvent.join "R" "A", GEvent.join "R" "B"]) "R"
      ["X"] 0 waitRoom (by decide) (by decide) (by decide)).1,
   (claim10_theorem waitConfig
      (reachable_runEvents [GEvent.join "R" "A", GEvent.join "R" "B"]) "R"
      ["X"] 0 waitRoom (by decide) (by decide) (by decide)).2.1⟩

end EmojiCipher
